import Mathlib

/-!
# N-body simulation: quad-tree radius query, tree validator, pairwise force, integrator

Shallow embedding of `src/world.h` (`Vec2`, `Particle`, `computeForce`,
`updateParticle`) and `src/quad-tree.cpp` (`getParticlesImpl`,
`QuadTree::getParticles`, `checkNode`, `QuadTree::checkTree`, and the box geometry of
`showNode`).

`float` is modelled by exact arithmetic: every definition is generic in a
linearly ordered field `α`; the ones that call `sqrt` additionally need an exact
square root on `α` (`ExactSqrt`).  The real numbers are such a field; the
rationals serve for the parts of the program that never take a square root.
-/

namespace NBody

/-- An exact square root on an ordered field: the meaning given to the C library's
`sqrt` when `float` arithmetic is taken to be exact. -/
class ExactSqrt (α : Type) [LinearOrderedField α] where
  /-- The square root function. -/
  sqrt : α → α
  /-- A square root is never negative. -/
  sqrt_nonneg : ∀ x : α, 0 ≤ sqrt x
  /-- On non-negative arguments the square root squares back to its argument. -/
  mul_self_sqrt : ∀ x : α, 0 ≤ x → sqrt x * sqrt x = x

/-- The real numbers with `Real.sqrt` are an instance of exact arithmetic. -/
noncomputable instance instExactSqrtReal : ExactSqrt ℝ where
  sqrt := Real.sqrt
  sqrt_nonneg := Real.sqrt_nonneg
  mul_self_sqrt := fun _ h => Real.mul_self_sqrt h

/-! ## `world.h`: vectors and particles -/

/-- `class Vec2`: a pair of coordinates. -/
@[ext]
structure Vec2 (α : Type) where
  x : α
  y : α

/-- `class Particle`. -/
structure Particle (α : Type) where
  id : Int
  mass : α
  position : Vec2 α
  velocity : Vec2 α

section Field

variable {α : Type} [LinearOrderedField α]

/-- `Vec2::operator * (float s)` (and `operator *= (float s)`), written `v.scale s`. -/
def Vec2.scale (v : Vec2 α) (s : α) : Vec2 α := ⟨v.x * s, v.y * s⟩

/-- `Vec2::operator + (const Vec2 &)`. -/
def Vec2.add (v vin : Vec2 α) : Vec2 α := ⟨v.x + vin.x, v.y + vin.y⟩

/-- `Vec2::operator - (const Vec2 &)`. -/
def Vec2.sub (v vin : Vec2 α) : Vec2 α := ⟨v.x - vin.x, v.y - vin.y⟩

/-- `Vec2::operator -()`. -/
def Vec2.neg (v : Vec2 α) : Vec2 α := ⟨-v.x, -v.y⟩

instance : Add (Vec2 α) := ⟨Vec2.add⟩
instance : Sub (Vec2 α) := ⟨Vec2.sub⟩
instance : Neg (Vec2 α) := ⟨Vec2.neg⟩

/-- `Vec2::length`: `sqrt(x*x + y*y)`. -/
def Vec2.length [ExactSqrt α] (v : Vec2 α) : α := ExactSqrt.sqrt (v.x * v.x + v.y * v.y)

/-- `computeForce` of `world.h`, instrumented: the first component is the returned
force, the second lists the divisors of the divisions executed on the way, in order
(`1.0f / dist`, then `G / (dist * dist)` with the clamped distance, then the division
by `cullRadius * 0.25f` inside the fade).  The constants `1e-3f`, `1e-1f`, `0.01f`,
`0.75f` and `0.25f` are written as fractions. -/
def computeForceTraced [ExactSqrt α] (target attractor : Particle α) (cullRadius : α) :
    Vec2 α × List α :=
  let dir := attractor.position - target.position
  let dist := dir.length
  if dist < 1 / 1000 then (⟨0, 0⟩, [])
  else
    let dir := dir.scale (1 / dist)
    let divs := [dist]
    if dist > cullRadius then (⟨0, 0⟩, divs)
    else
      let dist := if dist < 1 / 10 then 1 / 10 else dist
      let G : α := 1 / 100
      let force := ((dir.scale target.mass).scale attractor.mass).scale (G / (dist * dist))
      let divs := divs ++ [dist * dist]
      if dist > cullRadius * (3 / 4) then
        let decay := 1 - (dist - cullRadius * (3 / 4)) / (cullRadius * (1 / 4))
        (force.scale decay, divs ++ [cullRadius * (1 / 4)])
      else (force, divs)

/-- `computeForce` of `world.h`: the force returned. -/
def computeForce [ExactSqrt α] (target attractor : Particle α) (cullRadius : α) : Vec2 α :=
  (computeForceTraced target attractor cullRadius).1

/-- Modelled from the spec: the force accumulation of a simulation step (`simulateStep`
is only declared in `world.h`): "Total force on a particle is the sum of contributions
from all neighbors returned by its radius query." -/
def totalForce [ExactSqrt α] (target : Particle α) (neighbors : List (Particle α))
    (cullRadius : α) : Vec2 α :=
  neighbors.foldl (fun force q => force + computeForce target q cullRadius) ⟨0, 0⟩

/-- `updateParticle` of `world.h`.  The quotient `deltaTime / pi.mass` is the division of
the field, which stands for the source's division when `pi.mass` is not zero; for what
happens at `pi.mass = 0` see `updateParticleChecked`. -/
def updateParticle (pi : Particle α) (force : Vec2 α) (deltaTime : α) : Particle α :=
  let result := pi
  let result := { result with velocity := result.velocity + force.scale (deltaTime / pi.mass) }
  let result := { result with position := result.position + result.velocity.scale deltaTime }
  result

/-- Modelled from the spec: `QuadTreeNode` is declared in `quad-tree.h`, which is not
among the sources.  The spec's tree node is a leaf holding a list of particles or an
internal node with four children; the members are the ones `quad-tree.cpp` reads
(`isLeaf`, `particles`, `children[0]`, ..., `children[3]`).  A value of this type stands
for a pointer (`QuadTreeNode *`, `std::shared_ptr<QuadTreeNode>`): either the null
pointer, which `checkNode` tests for, or a node. -/
inductive QuadTreeNode (α : Type) where
  | null : QuadTreeNode α
  | node (isLeaf : Bool) (particles : List (Particle α))
      (c0 c1 c2 c3 : QuadTreeNode α) : QuadTreeNode α

/-- Modelled from the spec: `class QuadTree` is declared in `quad-tree.h`, which is not
among the sources.  The spec's spatial tree is one root node plus the global bounding
box; the members are the ones `quad-tree.cpp` reads (`root`, `bmin`, `bmax`). -/
structure QuadTree (α : Type) where
  root : QuadTreeNode α
  bmin : Vec2 α
  bmax : Vec2 α

/-- Whether a pointer is null. -/
def QuadTreeNode.isNull : QuadTreeNode α → Bool
  | .null => true
  | .node _ _ _ _ _ _ => false

/-- Modelled from the spec: `boxPointDistance` is declared in `quad-tree.h`, which is
not among the sources.  The spec describes it as the minimum possible distance from the
point to the box, "the per-axis clamped distance to the rectangle, zero if P is inside
it": per axis, the amount by which the point lies outside the interval, clamped below at
zero, and then the length of that offset. -/
def boxPointDistance [ExactSqrt α] (bmin bmax p : Vec2 α) : α :=
  let dx := max (max (bmin.x - p.x) (p.x - bmax.x)) 0
  let dy := max (max (bmin.y - p.y) (p.y - bmax.y)) 0
  ExactSqrt.sqrt (dx * dx + dy * dy)

/-- The lower corner of child `i`, as all of `getParticlesImpl`, `checkNode` and
`showNode` compute it:
`childBMin.x = (i & 1) ? pivot.x : bmin.x; childBMin.y = ((i >> 1) & 1) ? pivot.y : bmin.y`. -/
def childBMin (bmin pivot : Vec2 α) (i : Nat) : Vec2 α :=
  ⟨if i &&& 1 ≠ 0 then pivot.x else bmin.x, if (i >>> 1) &&& 1 ≠ 0 then pivot.y else bmin.y⟩

/-- `Vec2 pivot = (bmin + bmax) * 0.5f`. -/
def pivotOf (bmin bmax : Vec2 α) : Vec2 α := (bmin + bmax).scale (1 / 2)

/-- `Vec2 size = (bmax - bmin) * 0.5f`. -/
def sizeOfBox (bmin bmax : Vec2 α) : Vec2 α := (bmax - bmin).scale (1 / 2)

/-- The upper corner of child `i`: `childBMax = childBMin + size`. -/
def childBMax (bmin bmax : Vec2 α) (i : Nat) : Vec2 α :=
  childBMin bmin (pivotOf bmin bmax) i + sizeOfBox bmin bmax

/-- The leaf loop of `getParticlesImpl`:
`for (auto & p : node->particles) if ((position - p.position).length() < radius) particles.push_back(p);`. -/
def pushWithin [ExactSqrt α] (particles : List (Particle α)) (ps : List (Particle α))
    (position : Vec2 α) (radius : α) : List (Particle α) :=
  ps.foldl
    (fun out p => if (position - p.position).length < radius then out ++ [p] else out)
    particles

/-- `getParticlesImpl` of `quad-tree.cpp`.  The output vector is passed in and the
updated vector is returned; `none` stands for dereferencing a null `node`.  The loop
`for (int i = 0; i < 4; i++)` is unrolled over `children[0..3]`.  The local
`containingChild` is computed by the source and never read, so it is left out. -/
def getParticlesImpl [ExactSqrt α] (particles : List (Particle α)) (node : QuadTreeNode α)
    (bmin bmax position : Vec2 α) (radius : α) : Option (List (Particle α)) :=
  match node with
  | .null => none
  | .node isLeaf ps c0 c1 c2 c3 =>
    if isLeaf then some (pushWithin particles ps position radius)
    else
      let pivot := pivotOf bmin bmax
      (if boxPointDistance (childBMin bmin pivot 0) (childBMax bmin bmax 0) position ≤ radius
        then getParticlesImpl particles c0 (childBMin bmin pivot 0) (childBMax bmin bmax 0)
          position radius
        else some particles).bind fun particles =>
      (if boxPointDistance (childBMin bmin pivot 1) (childBMax bmin bmax 1) position ≤ radius
        then getParticlesImpl particles c1 (childBMin bmin pivot 1) (childBMax bmin bmax 1)
          position radius
        else some particles).bind fun particles =>
      (if boxPointDistance (childBMin bmin pivot 2) (childBMax bmin bmax 2) position ≤ radius
        then getParticlesImpl particles c2 (childBMin bmin pivot 2) (childBMax bmin bmax 2)
          position radius
        else some particles).bind fun particles =>
      (if boxPointDistance (childBMin bmin pivot 3) (childBMax bmin bmax 3) position ≤ radius
        then getParticlesImpl particles c3 (childBMin bmin pivot 3) (childBMax bmin bmax 3)
          position radius
        else some particles)

/-- `QuadTree::getParticles`. -/
def QuadTree.getParticles [ExactSqrt α] (t : QuadTree α) (particles : List (Particle α))
    (position : Vec2 α) (radius : α) : Option (List (Particle α)) :=
  getParticlesImpl particles t.root t.bmin t.bmax position radius

/-- The test of the leaf loop of `checkNode` that makes it print and return false:
`p.position.x > bmax.x + delta || p.position.y > bmax.y + delta ||
 p.position.x < bmin.x - delta || p.position.y < bmin.y - delta`. -/
def outsideBox (bmin bmax : Vec2 α) (delta : α) (p : Particle α) : Bool :=
  decide (p.position.x > bmax.x + delta) || decide (p.position.y > bmax.y + delta) ||
  decide (p.position.x < bmin.x - delta) || decide (p.position.y < bmin.y - delta)

/-- `checkNode` of `quad-tree.cpp` (the diagnostics written to `std::cout` are left
out).  The loop over `children[0..3]` with its early `return false` is the
short-circuit conjunction. -/
def checkNode (node : QuadTreeNode α) (bmin bmax : Vec2 α) : Bool :=
  match node with
  | .null => false
  | .node isLeaf ps c0 c1 c2 c3 =>
    let delta : α := 1 / 10000
    if isLeaf then ps.all fun p => !outsideBox bmin bmax delta p
    else
      let pivot := pivotOf bmin bmax
      checkNode c0 (childBMin bmin pivot 0) (childBMax bmin bmax 0) &&
      checkNode c1 (childBMin bmin pivot 1) (childBMax bmin bmax 1) &&
      checkNode c2 (childBMin bmin pivot 2) (childBMax bmin bmax 2) &&
      checkNode c3 (childBMin bmin pivot 3) (childBMax bmin bmax 3)

/-- `QuadTree::checkTree`. -/
def QuadTree.checkTree (t : QuadTree α) : Bool :=
  checkNode t.root t.bmin t.bmax

/-- The local `containingChild` of `getParticlesImpl`:
`(position.x < pivot.x ? 0 : 1) + ((position.y < pivot.y ? 1 : 0) << 1)` with
`pivot = (bmin + bmax) * 0.5f`.  The source computes it and never reads it. -/
def containingChild (bmin bmax position : Vec2 α) : Nat :=
  let pivot := pivotOf bmin bmax
  (if position.x < pivot.x then 0 else 1) + ((if position.y < pivot.y then 1 else 0) <<< 1)

/-- `showNode` of `quad-tree.cpp`, as far as the box geometry goes: the boxes
`[bmin, bmax]` of the calls, in call order, each being the box the call draws; `none`
stands for dereferencing a null `node`.  The conversion of a box to pixel coordinates
and `Image::drawRectangle` (only declared in `world.h`) are left out.  The loop over
`children[0..3]` is unrolled. -/
def showNode (node : QuadTreeNode α) (bmin bmax : Vec2 α) : Option (List (Vec2 α × Vec2 α)) :=
  match node with
  | .null => none
  | .node isLeaf _ c0 c1 c2 c3 =>
    if isLeaf then some [(bmin, bmax)]
    else
      let pivot := pivotOf bmin bmax
      (showNode c0 (childBMin bmin pivot 0) (childBMax bmin bmax 0)).bind fun d0 =>
      (showNode c1 (childBMin bmin pivot 1) (childBMax bmin bmax 1)).bind fun d1 =>
      (showNode c2 (childBMin bmin pivot 2) (childBMax bmin bmax 2)).bind fun d2 =>
      (showNode c3 (childBMin bmin pivot 3) (childBMax bmin bmax 3)).bind fun d3 =>
      some ((bmin, bmax) :: (d0 ++ d1 ++ d2 ++ d3))

/-! ## Vocabulary of the properties -/

/-- A pointer into the tree together with the bounding box the traversals hand to it. -/
structure BoxedNode (α : Type) where
  node : QuadTreeNode α
  bmin : Vec2 α
  bmax : Vec2 α

/-- Every pointer reachable from `node` by following the child pointers of internal
(non-leaf) nodes, `node` itself first, each with the box obtained from `[bmin, bmax]` by
the repeated midpoint split.  The children of a leaf are not followed. -/
def reachable (node : QuadTreeNode α) (bmin bmax : Vec2 α) : List (BoxedNode α) :=
  match node with
  | .null => [⟨.null, bmin, bmax⟩]
  | .node isLeaf ps c0 c1 c2 c3 =>
    ⟨.node isLeaf ps c0 c1 c2 c3, bmin, bmax⟩ ::
      (if isLeaf then []
       else
        let pivot := pivotOf bmin bmax
        reachable c0 (childBMin bmin pivot 0) (childBMax bmin bmax 0) ++
        reachable c1 (childBMin bmin pivot 1) (childBMax bmin bmax 1) ++
        reachable c2 (childBMin bmin pivot 2) (childBMax bmin bmax 2) ++
        reachable c3 (childBMin bmin pivot 3) (childBMax bmin bmax 3))

/-- The particles stored in the leaves transitively under a node, leaves taken in
child-index order. -/
def leafParticles : QuadTreeNode α → List (Particle α)
  | .null => []
  | .node isLeaf ps c0 c1 c2 c3 =>
    if isLeaf then ps
    else leafParticles c0 ++ leafParticles c1 ++ leafParticles c2 ++ leafParticles c3

/-- The box `[bmin, bmax]` is not inverted on either axis. -/
def validBox (bmin bmax : Vec2 α) : Prop := bmin.x ≤ bmax.x ∧ bmin.y ≤ bmax.y

/-- A point lies inside the closed box `[bmin, bmax]`. -/
def inBox (bmin bmax p : Vec2 α) : Prop :=
  bmin.x ≤ p.x ∧ p.x ≤ bmax.x ∧ bmin.y ≤ p.y ∧ p.y ≤ bmax.y

/-- A point lies inside the box `[bmin, bmax]` enlarged by `delta` on each axis. -/
def inBoxTol (bmin bmax : Vec2 α) (delta : α) (p : Vec2 α) : Prop :=
  bmin.x - delta ≤ p.x ∧ p.x ≤ bmax.x + delta ∧ bmin.y - delta ≤ p.y ∧ p.y ≤ bmax.y + delta

/-- An internal (non-leaf) node one of whose four child pointers is null. -/
def QuadTreeNode.hasNullChild : QuadTreeNode α → Bool
  | .null => false
  | .node isLeaf _ c0 c1 c2 c3 =>
    !isLeaf && (c0.isNull || c1.isNull || c2.isNull || c3.isNull)

/-- The particles stored in the node itself when it is a leaf (none otherwise). -/
def QuadTreeNode.storedInLeaf : QuadTreeNode α → List (Particle α)
  | .null => []
  | .node isLeaf ps _ _ _ _ => if isLeaf then ps else []

/-- The brute-force radius query of the spec: a linear scan that keeps the particles
with `|position - p.position| < radius`. -/
def linearScan [ExactSqrt α] (ps : List (Particle α)) (position : Vec2 α) (radius : α) :
    List (Particle α) :=
  ps.filter fun p => decide ((position - p.position).length < radius)

/-- Every pointer reachable from the root points to a node: the root is not null and
an internal node has its four children. -/
def QuadTree.NoNull (t : QuadTree α) : Prop :=
  ∀ e ∈ reachable t.root t.bmin t.bmax, e.node.isNull = false

/-- The containment invariant, exact: for every node, every particle stored in a leaf
transitively under it lies inside that node's box. -/
def QuadTree.Contained (t : QuadTree α) : Prop :=
  ∀ e ∈ reachable t.root t.bmin t.bmax, ∀ p ∈ leafParticles e.node,
    inBox e.bmin e.bmax p.position

/-! ## Example trees -/

/-- An example tree on the box `[0,2] x [0,2]`: an internal root with four leaves,
holding particle 1 at `(0.5,0.5)` in child 0, particle 2 at `(1.5,0.5)` in child 1,
nothing in child 2 and particle 3 at `(1.5,1.5)` in child 3. -/
def exampleTree (α : Type) [LinearOrderedField α] : QuadTree α :=
  { root := .node false []
      (.node true [⟨1, 1, ⟨1 / 2, 1 / 2⟩, ⟨0, 0⟩⟩] .null .null .null .null)
      (.node true [⟨2, 1, ⟨3 / 2, 1 / 2⟩, ⟨0, 0⟩⟩] .null .null .null .null)
      (.node true [] .null .null .null .null)
      (.node true [⟨3, 1, ⟨3 / 2, 3 / 2⟩, ⟨0, 0⟩⟩] .null .null .null .null)
    bmin := ⟨0, 0⟩
    bmax := ⟨2, 2⟩ }

/-- The example tree with `children[2]` of the root left null. -/
def exampleTreeNullChild (α : Type) [LinearOrderedField α] : QuadTree α :=
  { root := .node false []
      (.node true [⟨1, 1, ⟨1 / 2, 1 / 2⟩, ⟨0, 0⟩⟩] .null .null .null .null)
      (.node true [⟨2, 1, ⟨3 / 2, 1 / 2⟩, ⟨0, 0⟩⟩] .null .null .null .null)
      .null
      (.node true [⟨3, 1, ⟨3 / 2, 3 / 2⟩, ⟨0, 0⟩⟩] .null .null .null .null)
    bmin := ⟨0, 0⟩
    bmax := ⟨2, 2⟩ }

/-- A tree that `checkTree` accepts without exact containment: on the box
`[0,2] x [0,2]`, the leaf `children[0]` (box `[0,1] x [0,1]`) stores particle 1 at
`(1.00005, 1)`, which is `0.00005` to the right of that box; the other leaves are
empty. -/
def exampleTreeTolerance (α : Type) [LinearOrderedField α] : QuadTree α :=
  { root := .node false []
      (.node true [⟨1, 1, ⟨1 + 1 / 20000, 1⟩, ⟨0, 0⟩⟩] .null .null .null .null)
      (.node true [] .null .null .null .null)
      (.node true [] .null .null .null .null)
      (.node true [] .null .null .null .null)
    bmin := ⟨0, 0⟩
    bmax := ⟨2, 2⟩ }

end Field

/-! ## Facts about the exact square root and `Vec2::length` -/

section SqrtLemmas

variable {α : Type} [LinearOrderedField α]

theorem Vec2.sub_x (a b : Vec2 α) : (a - b).x = a.x - b.x := rfl

theorem Vec2.sub_y (a b : Vec2 α) : (a - b).y = a.y - b.y := rfl

theorem Vec2.add_x (a b : Vec2 α) : (a + b).x = a.x + b.x := rfl

theorem Vec2.add_y (a b : Vec2 α) : (a + b).y = a.y + b.y := rfl

variable [ExactSqrt α]

theorem sqrt_eq_of_mul_self {x y : α} (hy : 0 ≤ y) (h : y * y = x) : ExactSqrt.sqrt x = y := by
  have hx : 0 ≤ x := h ▸ mul_self_nonneg y
  have h1 := ExactSqrt.mul_self_sqrt x hx
  have h2 := ExactSqrt.sqrt_nonneg x
  exact (mul_self_inj h2 hy).1 (h1.trans h.symm)

theorem sqrt_le_sqrt_of_le {x y : α} (hx : 0 ≤ x) (h : x ≤ y) :
    ExactSqrt.sqrt x ≤ ExactSqrt.sqrt y := by
  have hy : 0 ≤ y := hx.trans h
  rw [mul_self_le_mul_self_iff (ExactSqrt.sqrt_nonneg x) (ExactSqrt.sqrt_nonneg y),
    ExactSqrt.mul_self_sqrt x hx, ExactSqrt.mul_self_sqrt y hy]
  exact h

theorem Vec2.length_nonneg (v : Vec2 α) : 0 ≤ v.length := ExactSqrt.sqrt_nonneg _

theorem Vec2.length_eq_of_sq (v : Vec2 α) {d : α} (hd : 0 ≤ d)
    (h : d * d = v.x * v.x + v.y * v.y) : v.length = d :=
  sqrt_eq_of_mul_self hd h

theorem Vec2.length_mul_self (v : Vec2 α) : v.length * v.length = v.x * v.x + v.y * v.y :=
  ExactSqrt.mul_self_sqrt _ (add_nonneg (mul_self_nonneg _) (mul_self_nonneg _))

theorem Vec2.length_sub_comm (a b : Vec2 α) : (a - b).length = (b - a).length := by
  unfold Vec2.length
  congr 1
  simp only [Vec2.sub_x, Vec2.sub_y]
  ring

theorem Vec2.length_scale (v : Vec2 α) (s : α) : (v.scale s).length = |s| * v.length := by
  apply Vec2.length_eq_of_sq _ (mul_nonneg (abs_nonneg s) v.length_nonneg)
  have h := v.length_mul_self
  have hs : |s| * |s| = s * s := abs_mul_abs_self s
  simp only [Vec2.scale]
  calc |s| * v.length * (|s| * v.length) = (|s| * |s|) * (v.length * v.length) := by ring
    _ = s * s * (v.x * v.x + v.y * v.y) := by rw [hs, h]
    _ = v.x * s * (v.x * s) + v.y * s * (v.y * s) := by ring

theorem Vec2.length_sub_of_y_eq (a b : Vec2 α) (hy : a.y = b.y) (hx : b.x ≤ a.x) :
    (a - b).length = a.x - b.x := by
  apply Vec2.length_eq_of_sq _ (sub_nonneg.2 hx)
  simp only [Vec2.sub_x, Vec2.sub_y, hy]
  ring

theorem computeForce_eq_zero_of_lt (target attractor : Particle α) (cullRadius : α)
    (hd : cullRadius < (attractor.position - target.position).length) :
    computeForce target attractor cullRadius = ⟨0, 0⟩ := by
  simp only [computeForce, computeForceTraced]
  split_ifs <;> rfl

theorem totalForce_eq_zero (target : Particle α) (cullRadius : α) :
    ∀ neighbors : List (Particle α),
      (∀ q ∈ neighbors, computeForce target q cullRadius = ⟨0, 0⟩) →
      totalForce target neighbors cullRadius = ⟨0, 0⟩ := by
  intro neighbors
  unfold totalForce
  induction neighbors with
  | nil => intro _; rfl
  | cons q qs ih =>
    intro h
    have hq := h q (List.mem_cons_self q qs)
    have hz : ((⟨0, 0⟩ : Vec2 α) + computeForce target q cullRadius) = ⟨0, 0⟩ := by
      rw [hq]; ext <;> simp [Vec2.add_x, Vec2.add_y]
    rw [List.foldl_cons, hz]
    exact ih fun r hr => h r (List.mem_cons_of_mem q hr)

end SqrtLemmas

/-! ## Claims about `computeForce` and `updateParticle` -/

section ForceClaims

variable {α : Type} [LinearOrderedField α] [ExactSqrt α]

/-- C3 (hard cutoff, Scenario B): with `cullRadius > 0`, a pair whose distance exceeds
`cullRadius` exerts the zero force in both directions; hence a particle at distance
`2 * cullRadius` from all the others receives the total force zero and contributes the
zero force to each of them. -/
theorem computeForce_zero_beyond_cullRadius (p : Particle α) (others : List (Particle α))
    (cullRadius : α) (hc : 0 < cullRadius) :
    (∀ q : Particle α, cullRadius < (q.position - p.position).length →
        computeForce p q cullRadius = ⟨0, 0⟩ ∧ computeForce q p cullRadius = ⟨0, 0⟩) ∧
    ((∀ q ∈ others, (q.position - p.position).length = 2 * cullRadius) →
        totalForce p others cullRadius = ⟨0, 0⟩ ∧
        ∀ q ∈ others, computeForce q p cullRadius = ⟨0, 0⟩) := by
  have pair : ∀ q : Particle α, cullRadius < (q.position - p.position).length →
      computeForce p q cullRadius = ⟨0, 0⟩ ∧ computeForce q p cullRadius = ⟨0, 0⟩ := by
    intro q hq
    refine ⟨computeForce_eq_zero_of_lt p q cullRadius hq, ?_⟩
    apply computeForce_eq_zero_of_lt
    rw [Vec2.length_sub_comm]
    exact hq
  refine ⟨pair, fun h => ?_⟩
  have far : ∀ q ∈ others, cullRadius < (q.position - p.position).length := by
    intro q hq
    rw [h q hq]
    linarith
  exact ⟨totalForce_eq_zero p cullRadius others fun q hq => (pair q (far q hq)).1,
    fun q hq => (pair q (far q hq)).2⟩

/-- A witness of C3 over the reals: particles at `(0,0)` and `(2,0)` with
`cullRadius = 1` are at distance `2 * cullRadius` and exchange no force. -/
theorem computeForce_zero_beyond_cullRadius_witness :
    (0 : ℝ) < 1 ∧
    ((⟨2, 0⟩ : Vec2 ℝ) - ⟨0, 0⟩).length = 2 * 1 ∧
    totalForce (⟨0, 1, ⟨0, 0⟩, ⟨0, 0⟩⟩ : Particle ℝ) [⟨1, 1, ⟨2, 0⟩, ⟨0, 0⟩⟩] 1 = ⟨0, 0⟩ ∧
    computeForce (⟨1, 1, ⟨2, 0⟩, ⟨0, 0⟩⟩ : Particle ℝ) ⟨0, 1, ⟨0, 0⟩, ⟨0, 0⟩⟩ 1 = ⟨0, 0⟩ := by
  have hlen : ((⟨2, 0⟩ : Vec2 ℝ) - ⟨0, 0⟩).length = 2 * 1 := by
    rw [Vec2.length_sub_of_y_eq ⟨2, 0⟩ ⟨0, 0⟩ rfl (by norm_num)]; norm_num
  have H := (computeForce_zero_beyond_cullRadius (⟨0, 1, ⟨0, 0⟩, ⟨0, 0⟩⟩ : Particle ℝ)
    [⟨1, 1, ⟨2, 0⟩, ⟨0, 0⟩⟩] 1 one_pos).2
    (by intro q hq; rw [List.mem_singleton] at hq; subst hq; exact hlen)
  exact ⟨one_pos, hlen, H.1, H.2 _ (List.mem_singleton_self _)⟩

/-- C4 at a failing input: with `cullRadius = 0.05`, unit masses and the particles at
`(0,0)` and `(0.05,0)`, the distance equals `cullRadius` exactly, yet `computeForce`
returns `(-4, 0)` and not the zero vector: the distance has been raised to the floor
`0.1` before the fade is computed, which makes the fade factor `-4`. -/
theorem computeForce_at_cullRadius_below_floor :
    (0 : ℝ) < 1 / 20 ∧
    ((⟨1 / 20, 0⟩ : Vec2 ℝ) - ⟨0, 0⟩).length = 1 / 20 ∧
    computeForce (⟨0, 1, ⟨0, 0⟩, ⟨0, 0⟩⟩ : Particle ℝ) ⟨1, 1, ⟨1 / 20, 0⟩, ⟨0, 0⟩⟩ (1 / 20)
      = ⟨-4, 0⟩ ∧
    computeForce (⟨0, 1, ⟨0, 0⟩, ⟨0, 0⟩⟩ : Particle ℝ) ⟨1, 1, ⟨1 / 20, 0⟩, ⟨0, 0⟩⟩ (1 / 20)
      ≠ ⟨0, 0⟩ := by
  have hlen : ((⟨1 / 20, 0⟩ : Vec2 ℝ) - ⟨0, 0⟩).length = 1 / 20 := by
    rw [Vec2.length_sub_of_y_eq ⟨1 / 20, 0⟩ ⟨0, 0⟩ rfl (by norm_num)]; norm_num
  have hval : computeForce (⟨0, 1, ⟨0, 0⟩, ⟨0, 0⟩⟩ : Particle ℝ)
      ⟨1, 1, ⟨1 / 20, 0⟩, ⟨0, 0⟩⟩ (1 / 20) = ⟨-4, 0⟩ := by
    simp only [computeForce, computeForceTraced, hlen]
    norm_num [Vec2.scale, Vec2.sub_x, Vec2.sub_y]
  refine ⟨by norm_num, hlen, hval, ?_⟩
  rw [hval]
  intro h
  have := congrArg Vec2.x h
  norm_num at this

/-- Where C4 does hold: when `cullRadius` is at least the distance floor `0.1`, a pair
at distance exactly `cullRadius` exerts the zero force. -/
theorem computeForce_zero_at_cullRadius_of_floor_le (target attractor : Particle α)
    (cullRadius : α) (hc : 1 / 10 ≤ cullRadius)
    (hd : (attractor.position - target.position).length = cullRadius) :
    computeForce target attractor cullRadius = ⟨0, 0⟩ := by
  have hpos : 0 < cullRadius := lt_of_lt_of_le (by norm_num) hc
  simp only [computeForce, computeForceTraced, hd]
  rw [if_neg (by linarith), if_neg (lt_irrefl _), if_neg (not_lt.2 hc),
    if_pos (by linarith)]
  have hdecay : 1 - (cullRadius - cullRadius * (3 / 4)) / (cullRadius * (1 / 4)) = 0 := by
    field_simp
    ring
  simp only [hdecay, Vec2.scale, mul_zero]

/-- C5 fails as stated: with `cullRadius = 0.1`, unit masses and the particles at
`(0,0)` and `(0.075,0)`, the distance is `0.75 * cullRadius`, the undecayed
inverse-square value is `0.01 / 0.1^2 = 1`, and `computeForce` returns the zero vector:
the distance is first raised to the floor `0.1`, which lies in the fade range. -/
theorem computeForce_fade_start_counterexample :
    (0 : ℝ) < 1 / 10 ∧
    ((⟨3 / 40, 0⟩ : Vec2 ℝ) - ⟨0, 0⟩).length = 3 / 4 * (1 / 10) ∧
    computeForce (⟨0, 1, ⟨0, 0⟩, ⟨0, 0⟩⟩ : Particle ℝ) ⟨1, 1, ⟨3 / 40, 0⟩, ⟨0, 0⟩⟩ (1 / 10)
      = ⟨0, 0⟩ ∧
    (computeForce (⟨0, 1, ⟨0, 0⟩, ⟨0, 0⟩⟩ : Particle ℝ) ⟨1, 1, ⟨3 / 40, 0⟩, ⟨0, 0⟩⟩
        (1 / 10)).length
      ≠ 1 / 100 * 1 * 1 / (max (3 / 4 * (1 / 10)) (1 / 10)) ^ 2 := by
  have hlen : ((⟨3 / 40, 0⟩ : Vec2 ℝ) - ⟨0, 0⟩).length = 3 / 4 * (1 / 10) := by
    rw [Vec2.length_sub_of_y_eq ⟨3 / 40, 0⟩ ⟨0, 0⟩ rfl (by norm_num)]; norm_num
  have hval : computeForce (⟨0, 1, ⟨0, 0⟩, ⟨0, 0⟩⟩ : Particle ℝ)
      ⟨1, 1, ⟨3 / 40, 0⟩, ⟨0, 0⟩⟩ (1 / 10) = ⟨0, 0⟩ := by
    simp only [computeForce, computeForceTraced, hlen]
    norm_num [Vec2.scale, Vec2.sub_x, Vec2.sub_y]
  refine ⟨by norm_num, hlen, hval, ?_⟩
  rw [hval, Vec2.length_eq_of_sq (⟨0, 0⟩ : Vec2 ℝ) le_rfl (by norm_num)]
  have hmax : max (3 / 4 * (1 / 10 : ℝ)) (1 / 10) = 1 / 10 := max_eq_right (by norm_num)
  rw [hmax]
  norm_num

/-- C5, amended: when the fade start `0.75 * cullRadius` is at least the distance floor
`0.1`, a pair with positive masses at distance `d = 0.75 * cullRadius` is attracted with
a force of magnitude `G * targetMass * attractorMass / max(d, 0.1)^2`, `G = 0.01`, with
no fade factor applied. -/
theorem computeForce_length_at_fade_start (target attractor : Particle α) (cullRadius : α)
    (hc : 0 < cullRadius) (hmt : 0 < target.mass) (hma : 0 < attractor.mass)
    (hfloor : 1 / 10 ≤ 3 / 4 * cullRadius)
    (hd : (attractor.position - target.position).length = 3 / 4 * cullRadius) :
    (computeForce target attractor cullRadius).length
      = 1 / 100 * target.mass * attractor.mass / (max (3 / 4 * cullRadius) (1 / 10)) ^ 2 := by
  have hdpos : (0 : α) < 3 / 4 * cullRadius := by linarith
  simp only [computeForce, computeForceTraced, hd]
  rw [if_neg (by linarith), if_neg (by linarith), if_neg (not_lt.2 hfloor),
    if_neg (by linarith)]
  rw [Vec2.length_scale, Vec2.length_scale, Vec2.length_scale, Vec2.length_scale, hd,
    max_eq_left hfloor, abs_of_pos hma, abs_of_pos hmt,
    abs_of_pos (by positivity : (0 : α) < 1 / 100 / (3 / 4 * cullRadius * (3 / 4 * cullRadius))),
    abs_of_pos (by positivity : (0 : α) < 1 / (3 / 4 * cullRadius))]
  field_simp
  ring

/-- A witness of the amended C5 over the reals: `cullRadius = 1`, unit masses, the
particles at `(0,0)` and `(0.75,0)`. -/
theorem computeForce_length_at_fade_start_witness :
    (computeForce (⟨0, 1, ⟨0, 0⟩, ⟨0, 0⟩⟩ : Particle ℝ) ⟨1, 1, ⟨3 / 4, 0⟩, ⟨0, 0⟩⟩ 1).length
      = 1 / 100 * 1 * 1 / (max (3 / 4 * 1) (1 / 10)) ^ 2 :=
  computeForce_length_at_fade_start (⟨0, 1, ⟨0, 0⟩, ⟨0, 0⟩⟩ : Particle ℝ)
    ⟨1, 1, ⟨3 / 4, 0⟩, ⟨0, 0⟩⟩ 1 one_pos one_pos one_pos (by norm_num)
    (by rw [Vec2.length_sub_of_y_eq ⟨3 / 4, 0⟩ ⟨0, 0⟩ rfl (by norm_num)]; norm_num)

/-- C6 (self-force): `computeForce(p, p, cullRadius)` is the zero vector for every
`cullRadius`; more generally, whenever the distance between target and attractor is
below `1e-3`, `computeForce` returns the zero vector and has executed no division. -/
theorem computeForce_self_zero (p target attractor : Particle α) (cullRadius : α) :
    computeForce p p cullRadius = ⟨0, 0⟩ ∧
    ((attractor.position - target.position).length < 1 / 1000 →
      computeForce target attractor cullRadius = ⟨0, 0⟩ ∧
      (computeForceTraced target attractor cullRadius).2 = []) := by
  have guard : ∀ t a : Particle α, (a.position - t.position).length < 1 / 1000 →
      computeForceTraced t a cullRadius = (⟨0, 0⟩, []) := by
    intro t a h
    simp only [computeForceTraced]
    rw [if_pos h]
  refine ⟨?_, fun h => ?_⟩
  · have h0 : (p.position - p.position).length = 0 :=
      Vec2.length_eq_of_sq _ le_rfl (by simp [Vec2.sub_x, Vec2.sub_y])
    have := guard p p (by rw [h0]; norm_num)
    simp only [computeForce, this]
  · have := guard target attractor h
    simp only [computeForce, this, and_self]

/-- A witness of C6 over the reals: particles at `(0,0)` and `(0.0005,0)`. -/
theorem computeForce_self_zero_witness :
    computeForce (⟨0, 1, ⟨0, 0⟩, ⟨0, 0⟩⟩ : Particle ℝ) ⟨1, 1, ⟨1 / 2000, 0⟩, ⟨0, 0⟩⟩ 1
      = ⟨0, 0⟩ ∧
    (computeForceTraced (⟨0, 1, ⟨0, 0⟩, ⟨0, 0⟩⟩ : Particle ℝ)
      ⟨1, 1, ⟨1 / 2000, 0⟩, ⟨0, 0⟩⟩ 1).2 = [] :=
  (computeForce_self_zero (⟨0, 1, ⟨0, 0⟩, ⟨0, 0⟩⟩ : Particle ℝ) ⟨0, 1, ⟨0, 0⟩, ⟨0, 0⟩⟩
    ⟨1, 1, ⟨1 / 2000, 0⟩, ⟨0, 0⟩⟩ 1).2
    (by rw [Vec2.length_sub_of_y_eq ⟨1 / 2000, 0⟩ ⟨0, 0⟩ rfl (by norm_num)]; norm_num)

/-- C7 (inverse-square law in the undecayed range): for a pair whose distance `d`
satisfies `0.1 <= d <= 0.75 * cullRadius`, `computeForce(target, attractor, cullRadius)`
is `((attractor.position - target.position) / d) * (0.01 * target.mass * attractor.mass / d^2)`,
component by component. -/
theorem computeForce_inverse_square (target attractor : Particle α) (cullRadius d : α)
    (hd : (attractor.position - target.position).length = d)
    (hlo : 1 / 10 ≤ d) (hhi : d ≤ 3 / 4 * cullRadius) :
    computeForce target attractor cullRadius =
      ⟨(attractor.position.x - target.position.x) / d
          * (1 / 100 * target.mass * attractor.mass / d ^ 2),
       (attractor.position.y - target.position.y) / d
          * (1 / 100 * target.mass * attractor.mass / d ^ 2)⟩ := by
  have hdpos : (0 : α) < d := lt_of_lt_of_le (by norm_num) hlo
  simp only [computeForce, computeForceTraced, hd]
  rw [if_neg (by linarith), if_neg (by linarith), if_neg (not_lt.2 hlo),
    if_neg (by linarith)]
  ext
  · simp only [Vec2.scale, Vec2.sub_x]
    field_simp
    ring
  · simp only [Vec2.scale, Vec2.sub_y]
    field_simp
    ring

/-- Scenario A, the witness of C7 over the reals: masses 1 and 1 at `(0,0)` and
`(0.5,0)` with `cullRadius = 1` are at distance `0.5`; the force on the first particle
is `(0.04, 0)` and the force on the second is `(-0.04, 0)`. -/
theorem computeForce_scenario_A :
    computeForce (⟨0, 1, ⟨0, 0⟩, ⟨0, 0⟩⟩ : Particle ℝ) ⟨1, 1, ⟨1 / 2, 0⟩, ⟨0, 0⟩⟩ 1
      = ⟨4 / 100, 0⟩ ∧
    computeForce (⟨1, 1, ⟨1 / 2, 0⟩, ⟨0, 0⟩⟩ : Particle ℝ) ⟨0, 1, ⟨0, 0⟩, ⟨0, 0⟩⟩ 1
      = ⟨-(4 / 100), 0⟩ := by
  have hlen : ((⟨1 / 2, 0⟩ : Vec2 ℝ) - ⟨0, 0⟩).length = 1 / 2 := by
    rw [Vec2.length_sub_of_y_eq ⟨1 / 2, 0⟩ ⟨0, 0⟩ rfl (by norm_num)]; norm_num
  have hlen2 : ((⟨0, 0⟩ : Vec2 ℝ) - ⟨1 / 2, 0⟩).length = 1 / 2 := by
    rw [Vec2.length_sub_comm]; exact hlen
  constructor
  · rw [computeForce_inverse_square (⟨0, 1, ⟨0, 0⟩, ⟨0, 0⟩⟩ : Particle ℝ)
      ⟨1, 1, ⟨1 / 2, 0⟩, ⟨0, 0⟩⟩ 1 (1 / 2) hlen (by norm_num) (by norm_num)]
    ext <;> norm_num
  · rw [computeForce_inverse_square (⟨1, 1, ⟨1 / 2, 0⟩, ⟨0, 0⟩⟩ : Particle ℝ)
      ⟨0, 1, ⟨0, 0⟩, ⟨0, 0⟩⟩ 1 (1 / 2) hlen2 (by norm_num) (by norm_num)]
    ext <;> norm_num

end ForceClaims

section IntegrationClaims

variable {α : Type} [LinearOrderedField α]

/-- C8 (semi-implicit Euler): for a particle with non-zero mass, `updateParticle` sets
the velocity to `velocity + (force / mass) * deltaTime` and the position to
`position + newVelocity * deltaTime`, where `newVelocity` is that updated velocity, not
the old one. -/
theorem updateParticle_semi_implicit_euler (pi : Particle α) (force : Vec2 α)
    (deltaTime : α) (hm : pi.mass ≠ 0) :
    (updateParticle pi force deltaTime).velocity =
      ⟨pi.velocity.x + force.x / pi.mass * deltaTime,
       pi.velocity.y + force.y / pi.mass * deltaTime⟩ ∧
    (updateParticle pi force deltaTime).position =
      ⟨pi.position.x + (pi.velocity.x + force.x / pi.mass * deltaTime) * deltaTime,
       pi.position.y + (pi.velocity.y + force.y / pi.mass * deltaTime) * deltaTime⟩ ∧
    (updateParticle pi force deltaTime).position =
      pi.position + (updateParticle pi force deltaTime).velocity.scale deltaTime := by
  refine ⟨?_, ?_, rfl⟩
  · ext
    · simp only [updateParticle, Vec2.add_x, Vec2.scale]
      field_simp
    · simp only [updateParticle, Vec2.add_y, Vec2.scale]
      field_simp
  · ext
    · simp only [updateParticle, Vec2.add_x, Vec2.scale]
      field_simp
    · simp only [updateParticle, Vec2.add_y, Vec2.scale]
      field_simp

/-- A witness of C8 over the rationals: the first particle of Scenario A (mass 1, at
rest at the origin) under the force `(0.04, 0)` with `deltaTime = 0.2` gets the velocity
`(0.008, 0)` and the position `(0.0016, 0)`. -/
theorem updateParticle_semi_implicit_euler_witness :
    (updateParticle (⟨0, 1, ⟨0, 0⟩, ⟨0, 0⟩⟩ : Particle ℚ) ⟨4 / 100, 0⟩ (1 / 5)).velocity
      = ⟨8 / 1000, 0⟩ ∧
    (updateParticle (⟨0, 1, ⟨0, 0⟩, ⟨0, 0⟩⟩ : Particle ℚ) ⟨4 / 100, 0⟩ (1 / 5)).position
      = ⟨16 / 10000, 0⟩ := by
  have H := updateParticle_semi_implicit_euler (⟨0, 1, ⟨0, 0⟩, ⟨0, 0⟩⟩ : Particle ℚ)
    ⟨4 / 100, 0⟩ (1 / 5) one_ne_zero
  constructor
  · rw [H.1]; ext <;> norm_num
  · rw [H.2.1]; ext <;> norm_num

end IntegrationClaims

/-! ## Facts about the child boxes and the traversal -/

section ChildBoxLemmas

variable {α : Type}

theorem childBMin_zero (bmin pivot : Vec2 α) : childBMin bmin pivot 0 = ⟨bmin.x, bmin.y⟩ := by
  simp [childBMin]

theorem childBMin_one (bmin pivot : Vec2 α) : childBMin bmin pivot 1 = ⟨pivot.x, bmin.y⟩ := by
  simp [childBMin]

theorem childBMin_two (bmin pivot : Vec2 α) : childBMin bmin pivot 2 = ⟨bmin.x, pivot.y⟩ := by
  simp [childBMin]

theorem childBMin_three (bmin pivot : Vec2 α) :
    childBMin bmin pivot 3 = ⟨pivot.x, pivot.y⟩ := by
  simp [childBMin]

end ChildBoxLemmas

section TreeLemmas

variable {α : Type} [LinearOrderedField α]

/-- For a box that is not inverted, each child box is not inverted and lies inside it. -/
theorem childBox_inside (bmin bmax : Vec2 α) (i : Nat) (hi : i < 4)
    (hv : validBox bmin bmax) :
    validBox (childBMin bmin (pivotOf bmin bmax) i) (childBMax bmin bmax i) ∧
    bmin.x ≤ (childBMin bmin (pivotOf bmin bmax) i).x ∧
    (childBMax bmin bmax i).x ≤ bmax.x ∧
    bmin.y ≤ (childBMin bmin (pivotOf bmin bmax) i).y ∧
    (childBMax bmin bmax i).y ≤ bmax.y := by
  obtain ⟨hx, hy⟩ := hv
  interval_cases i <;>
    simp only [validBox, childBMax, childBMin_zero, childBMin_one, childBMin_two,
      childBMin_three, pivotOf, sizeOfBox, Vec2.add_x, Vec2.add_y, Vec2.sub_x, Vec2.sub_y,
      Vec2.scale] <;>
    refine ⟨⟨?_, ?_⟩, ?_, ?_, ?_, ?_⟩ <;> linarith

theorem reachable_self (node : QuadTreeNode α) (bmin bmax : Vec2 α) :
    (⟨node, bmin, bmax⟩ : BoxedNode α) ∈ reachable node bmin bmax := by
  cases node <;> simp [reachable]

/-- What is reachable from a child of an internal node is reachable from the node. -/
theorem reachable_of_child (ps : List (Particle α)) (c0 c1 c2 c3 : QuadTreeNode α)
    (bmin bmax : Vec2 α) (e : BoxedNode α)
    (h : e ∈ reachable c0 (childBMin bmin (pivotOf bmin bmax) 0) (childBMax bmin bmax 0) ∨
         e ∈ reachable c1 (childBMin bmin (pivotOf bmin bmax) 1) (childBMax bmin bmax 1) ∨
         e ∈ reachable c2 (childBMin bmin (pivotOf bmin bmax) 2) (childBMax bmin bmax 2) ∨
         e ∈ reachable c3 (childBMin bmin (pivotOf bmin bmax) 3) (childBMax bmin bmax 3)) :
    e ∈ reachable (.node false ps c0 c1 c2 c3) bmin bmax := by
  simp only [reachable, Bool.false_eq_true, if_false, List.mem_cons, List.mem_append]
  tauto

/-- The pointers reachable from an internal node are the node and what is reachable
from its four children. -/
theorem mem_reachable_internal (ps : List (Particle α)) (c0 c1 c2 c3 : QuadTreeNode α)
    (bmin bmax : Vec2 α) (e : BoxedNode α) :
    e ∈ reachable (.node false ps c0 c1 c2 c3) bmin bmax ↔
      e = ⟨.node false ps c0 c1 c2 c3, bmin, bmax⟩ ∨
      e ∈ reachable c0 (childBMin bmin (pivotOf bmin bmax) 0) (childBMax bmin bmax 0) ∨
      e ∈ reachable c1 (childBMin bmin (pivotOf bmin bmax) 1) (childBMax bmin bmax 1) ∨
      e ∈ reachable c2 (childBMin bmin (pivotOf bmin bmax) 2) (childBMax bmin bmax 2) ∨
      e ∈ reachable c3 (childBMin bmin (pivotOf bmin bmax) 3) (childBMax bmin bmax 3) := by
  simp only [reachable, Bool.false_eq_true, if_false, List.mem_cons, List.mem_append]
  tauto

/-- A property holds at a pointer reachable from an internal node when it holds at the
node or at a pointer reachable from one of its children. -/
theorem exists_reachable_internal (ps : List (Particle α)) (c0 c1 c2 c3 : QuadTreeNode α)
    (bmin bmax : Vec2 α) (P : BoxedNode α → Prop) :
    (∃ e ∈ reachable (.node false ps c0 c1 c2 c3) bmin bmax, P e) ↔
      (P ⟨.node false ps c0 c1 c2 c3, bmin, bmax⟩ ∨
       (∃ e ∈ reachable c0 (childBMin bmin (pivotOf bmin bmax) 0) (childBMax bmin bmax 0),
          P e) ∨
       (∃ e ∈ reachable c1 (childBMin bmin (pivotOf bmin bmax) 1) (childBMax bmin bmax 1),
          P e) ∨
       (∃ e ∈ reachable c2 (childBMin bmin (pivotOf bmin bmax) 2) (childBMax bmin bmax 2),
          P e) ∨
       (∃ e ∈ reachable c3 (childBMin bmin (pivotOf bmin bmax) 3) (childBMax bmin bmax 3),
          P e)) := by
  constructor
  · rintro ⟨e, he, hP⟩
    rw [mem_reachable_internal] at he
    rcases he with he | he | he | he | he
    · subst he; exact Or.inl hP
    · exact Or.inr (Or.inl ⟨e, he, hP⟩)
    · exact Or.inr (Or.inr (Or.inl ⟨e, he, hP⟩))
    · exact Or.inr (Or.inr (Or.inr (Or.inl ⟨e, he, hP⟩)))
    · exact Or.inr (Or.inr (Or.inr (Or.inr ⟨e, he, hP⟩)))
  · have sub := reachable_of_child ps c0 c1 c2 c3 bmin bmax
    rintro (hP | ⟨e, he, hP⟩ | ⟨e, he, hP⟩ | ⟨e, he, hP⟩ | ⟨e, he, hP⟩)
    · exact ⟨_, reachable_self _ _ _, hP⟩
    · exact ⟨e, sub e (Or.inl he), hP⟩
    · exact ⟨e, sub e (Or.inr (Or.inl he)), hP⟩
    · exact ⟨e, sub e (Or.inr (Or.inr (Or.inl he))), hP⟩
    · exact ⟨e, sub e (Or.inr (Or.inr (Or.inr he))), hP⟩

theorem mem_reachable_leaf (ps : List (Particle α)) (c0 c1 c2 c3 : QuadTreeNode α)
    (bmin bmax : Vec2 α) (e : BoxedNode α) :
    e ∈ reachable (.node true ps c0 c1 c2 c3) bmin bmax ↔
      e = ⟨.node true ps c0 c1 c2 c3, bmin, bmax⟩ := by
  simp [reachable]

theorem mem_reachable_null (bmin bmax : Vec2 α) (e : BoxedNode α) :
    e ∈ reachable (.null : QuadTreeNode α) bmin bmax ↔ e = ⟨.null, bmin, bmax⟩ := by
  simp [reachable]

variable [ExactSqrt α]

/-- The leaf loop appends, in order, the particles that pass the distance test. -/
theorem pushWithin_eq (ps particles : List (Particle α)) (position : Vec2 α) (radius : α) :
    pushWithin particles ps position radius = particles ++ linearScan ps position radius := by
  unfold pushWithin linearScan
  induction ps generalizing particles with
  | nil => simp
  | cons p ps ih =>
    rw [List.foldl_cons, ih]
    by_cases h : (position - p.position).length < radius
    · simp [h, List.filter_cons]
    · simp [h, List.filter_cons]

/-- The box-to-point distance is a lower bound on the distance to any point of the box. -/
theorem boxPointDistance_le (bmin bmax p q : Vec2 α) (hq : inBox bmin bmax q) :
    boxPointDistance bmin bmax p ≤ (p - q).length := by
  obtain ⟨h1, h2, h3, h4⟩ := hq
  unfold boxPointDistance Vec2.length
  apply sqrt_le_sqrt_of_le (add_nonneg (mul_self_nonneg _) (mul_self_nonneg _))
  have hx : max (max (bmin.x - p.x) (p.x - bmax.x)) 0 ≤ |p.x - q.x| := by
    refine max_le (max_le ?_ ?_) (abs_nonneg _)
    · rw [abs_sub_comm]; exact le_trans (by linarith) (le_abs_self _)
    · exact le_trans (by linarith) (le_abs_self _)
  have hy : max (max (bmin.y - p.y) (p.y - bmax.y)) 0 ≤ |p.y - q.y| := by
    refine max_le (max_le ?_ ?_) (abs_nonneg _)
    · rw [abs_sub_comm]; exact le_trans (by linarith) (le_abs_self _)
    · exact le_trans (by linarith) (le_abs_self _)
  have hx2 := mul_self_le_mul_self (le_max_right _ _) hx
  have hy2 := mul_self_le_mul_self (le_max_right _ _) hy
  rw [abs_mul_abs_self] at hx2 hy2
  simp only [Vec2.sub_x, Vec2.sub_y]
  exact add_le_add hx2 hy2

theorem linearScan_append (xs ys : List (Particle α)) (position : Vec2 α) (radius : α) :
    linearScan (xs ++ ys) position radius
      = linearScan xs position radius ++ linearScan ys position radius := by
  simp [linearScan, List.filter_append]

theorem mem_linearScan (ps : List (Particle α)) (position : Vec2 α) (radius : α)
    (p : Particle α) :
    p ∈ linearScan ps position radius ↔ p ∈ ps ∧ (position - p.position).length < radius := by
  simp [linearScan, List.mem_filter]

/-- A subtree whose particles all lie in its box and whose box is farther than `radius`
from the query position holds no particle within `radius`. -/
theorem linearScan_eq_nil_of_far (ps : List (Particle α)) (bmin bmax position : Vec2 α)
    (radius : α) (hin : ∀ p ∈ ps, inBox bmin bmax p.position)
    (hfar : ¬ boxPointDistance bmin bmax position ≤ radius) :
    linearScan ps position radius = [] := by
  rw [List.eq_nil_iff_forall_not_mem]
  intro p hp
  rw [mem_linearScan] at hp
  exact hfar (le_trans (boxPointDistance_le bmin bmax position p.position (hin p hp.1))
    (le_of_lt hp.2))

/-- One iteration of the child loop, for a child on which the query is already known to
return the filtered leaves. -/
theorem visit_eq (c : QuadTreeNode α) (bmin bmax position : Vec2 α) (radius : α)
    (acc : List (Particle α))
    (hrec : getParticlesImpl acc c bmin bmax position radius
      = some (acc ++ linearScan (leafParticles c) position radius))
    (hin : ∀ p ∈ leafParticles c, inBox bmin bmax p.position) :
    (if boxPointDistance bmin bmax position ≤ radius
      then getParticlesImpl acc c bmin bmax position radius else some acc)
      = some (acc ++ linearScan (leafParticles c) position radius) := by
  by_cases h : boxPointDistance bmin bmax position ≤ radius
  · rw [if_pos h, hrec]
  · rw [if_neg h, linearScan_eq_nil_of_far _ bmin bmax position radius hin h, List.append_nil]

/-- On a tree without null pointers that satisfies exact containment at every node, the
query appends to its output exactly the leaves' particles within `radius`, in leaf
order. -/
theorem getParticlesImpl_eq_linearScan (node : QuadTreeNode α) :
    ∀ (particles : List (Particle α)) (bmin bmax position : Vec2 α) (radius : α),
      (∀ e ∈ reachable node bmin bmax, e.node.isNull = false) →
      (∀ e ∈ reachable node bmin bmax, ∀ p ∈ leafParticles e.node,
        inBox e.bmin e.bmax p.position) →
      getParticlesImpl particles node bmin bmax position radius
        = some (particles ++ linearScan (leafParticles node) position radius) := by
  induction node with
  | null =>
    intro _ bmin bmax _ _ hnn _
    have := hnn _ (reachable_self _ bmin bmax)
    simp [QuadTreeNode.isNull] at this
  | node isLeaf ps c0 c1 c2 c3 ih0 ih1 ih2 ih3 =>
    intro particles bmin bmax position radius hnn hc
    cases isLeaf with
    | true => simp [getParticlesImpl, leafParticles, pushWithin_eq]
    | false =>
      have sub := reachable_of_child ps c0 c1 c2 c3 bmin bmax
      have r0 : ∀ e ∈ reachable c0 (childBMin bmin (pivotOf bmin bmax) 0)
          (childBMax bmin bmax 0), e ∈ reachable (.node false ps c0 c1 c2 c3) bmin bmax :=
        fun e he => sub e (Or.inl he)
      have r1 : ∀ e ∈ reachable c1 (childBMin bmin (pivotOf bmin bmax) 1)
          (childBMax bmin bmax 1), e ∈ reachable (.node false ps c0 c1 c2 c3) bmin bmax :=
        fun e he => sub e (Or.inr (Or.inl he))
      have r2 : ∀ e ∈ reachable c2 (childBMin bmin (pivotOf bmin bmax) 2)
          (childBMax bmin bmax 2), e ∈ reachable (.node false ps c0 c1 c2 c3) bmin bmax :=
        fun e he => sub e (Or.inr (Or.inr (Or.inl he)))
      have r3 : ∀ e ∈ reachable c3 (childBMin bmin (pivotOf bmin bmax) 3)
          (childBMax bmin bmax 3), e ∈ reachable (.node false ps c0 c1 c2 c3) bmin bmax :=
        fun e he => sub e (Or.inr (Or.inr (Or.inr he)))
      simp only [getParticlesImpl, Bool.false_eq_true, if_false, leafParticles]
      rw [visit_eq c0 _ _ position radius particles
          (ih0 _ _ _ _ _ (fun e he => hnn e (r0 e he)) (fun e he => hc e (r0 e he)))
          (hc _ (r0 _ (reachable_self _ _ _))),
        Option.some_bind,
        visit_eq c1 _ _ position radius _
          (ih1 _ _ _ _ _ (fun e he => hnn e (r1 e he)) (fun e he => hc e (r1 e he)))
          (hc _ (r1 _ (reachable_self _ _ _))),
        Option.some_bind,
        visit_eq c2 _ _ position radius _
          (ih2 _ _ _ _ _ (fun e he => hnn e (r2 e he)) (fun e he => hc e (r2 e he)))
          (hc _ (r2 _ (reachable_self _ _ _))),
        Option.some_bind,
        visit_eq c3 _ _ position radius _
          (ih3 _ _ _ _ _ (fun e he => hnn e (r3 e he)) (fun e he => hc e (r3 e he)))
          (hc _ (r3 _ (reachable_self _ _ _)))]
      simp only [linearScan_append, List.append_assoc]

/-- One iteration of the child loop adds a sublist of the child's filtered leaves. -/
theorem visit_sound (c : QuadTreeNode α) (bmin bmax position : Vec2 α) (radius : α)
    (acc out : List (Particle α))
    (hrec : ∀ out, getParticlesImpl acc c bmin bmax position radius = some out →
      ∃ added, out = acc ++ added ∧
        added.Sublist (linearScan (leafParticles c) position radius))
    (h : (if boxPointDistance bmin bmax position ≤ radius
      then getParticlesImpl acc c bmin bmax position radius else some acc) = some out) :
    ∃ added, out = acc ++ added ∧
      added.Sublist (linearScan (leafParticles c) position radius) := by
  by_cases hd : boxPointDistance bmin bmax position ≤ radius
  · rw [if_pos hd] at h
    exact hrec out h
  · rw [if_neg hd] at h
    refine ⟨[], ?_, List.nil_sublist _⟩
    rw [List.append_nil]
    exact (Option.some.inj h).symm

/-- On any tree, whatever the query returns is its input followed by a sublist of the
leaves' particles within `radius`. -/
theorem getParticlesImpl_sound (node : QuadTreeNode α) :
    ∀ (particles : List (Particle α)) (bmin bmax position : Vec2 α) (radius : α)
      (out : List (Particle α)),
      getParticlesImpl particles node bmin bmax position radius = some out →
      ∃ added, out = particles ++ added ∧
        added.Sublist (linearScan (leafParticles node) position radius) := by
  induction node with
  | null =>
    intro _ _ _ _ _ _ h
    simp [getParticlesImpl] at h
  | node isLeaf ps c0 c1 c2 c3 ih0 ih1 ih2 ih3 =>
    intro particles bmin bmax position radius out h
    cases isLeaf with
    | true =>
      simp only [getParticlesImpl, if_true, pushWithin_eq, Option.some.injEq] at h
      exact ⟨_, h.symm, by simp only [leafParticles, if_true]; exact List.Sublist.refl _⟩
    | false =>
      simp only [getParticlesImpl, Bool.false_eq_true, if_false, Option.bind_eq_some] at h
      obtain ⟨a0, h0, a1, h1, a2, h2, h3⟩ := h
      obtain ⟨d0, e0, s0⟩ := visit_sound c0 _ _ position radius particles a0 (ih0 _ _ _ _ _) h0
      obtain ⟨d1, e1, s1⟩ := visit_sound c1 _ _ position radius a0 a1 (ih1 _ _ _ _ _) h1
      obtain ⟨d2, e2, s2⟩ := visit_sound c2 _ _ position radius a1 a2 (ih2 _ _ _ _ _) h2
      obtain ⟨d3, e3, s3⟩ := visit_sound c3 _ _ position radius a2 out (ih3 _ _ _ _ _) h3
      refine ⟨d0 ++ d1 ++ d2 ++ d3, ?_, ?_⟩
      · rw [e3, e2, e1, e0]
        simp only [List.append_assoc]
      · simp only [leafParticles, Bool.false_eq_true, if_false, linearScan_append]
        exact ((s0.append s1).append s2).append s3

/-- One iteration of the child loop returns when the recursive call does. -/
theorem visit_total (c : QuadTreeNode α) (bmin bmax position : Vec2 α) (radius : α)
    (acc : List (Particle α))
    (hrec : ∃ out, getParticlesImpl acc c bmin bmax position radius = some out) :
    ∃ out, (if boxPointDistance bmin bmax position ≤ radius
      then getParticlesImpl acc c bmin bmax position radius else some acc) = some out := by
  by_cases hd : boxPointDistance bmin bmax position ≤ radius
  · rw [if_pos hd]; exact hrec
  · rw [if_neg hd]; exact ⟨acc, rfl⟩

/-- On a tree without reachable null pointers the query returns. -/
theorem getParticlesImpl_total (node : QuadTreeNode α) :
    ∀ (particles : List (Particle α)) (bmin bmax position : Vec2 α) (radius : α),
      (∀ e ∈ reachable node bmin bmax, e.node.isNull = false) →
      ∃ out, getParticlesImpl particles node bmin bmax position radius = some out := by
  induction node with
  | null =>
    intro _ bmin bmax _ _ hnn
    have := hnn _ (reachable_self _ bmin bmax)
    simp [QuadTreeNode.isNull] at this
  | node isLeaf ps c0 c1 c2 c3 ih0 ih1 ih2 ih3 =>
    intro particles bmin bmax position radius hnn
    cases isLeaf with
    | true => exact ⟨pushWithin particles ps position radius, by simp only [getParticlesImpl, if_true]⟩
    | false =>
      have sub := reachable_of_child ps c0 c1 c2 c3 bmin bmax
      obtain ⟨a0, h0⟩ := visit_total c0 _ _ position radius particles
        (ih0 particles (childBMin bmin (pivotOf bmin bmax) 0) (childBMax bmin bmax 0)
          position radius fun e he => hnn e (sub e (Or.inl he)))
      obtain ⟨a1, h1⟩ := visit_total c1 _ _ position radius a0
        (ih1 a0 (childBMin bmin (pivotOf bmin bmax) 1) (childBMax bmin bmax 1)
          position radius fun e he => hnn e (sub e (Or.inr (Or.inl he))))
      obtain ⟨a2, h2⟩ := visit_total c2 _ _ position radius a1
        (ih2 a1 (childBMin bmin (pivotOf bmin bmax) 2) (childBMax bmin bmax 2)
          position radius fun e he => hnn e (sub e (Or.inr (Or.inr (Or.inl he)))))
      obtain ⟨a3, h3⟩ := visit_total c3 _ _ position radius a2
        (ih3 a2 (childBMin bmin (pivotOf bmin bmax) 3) (childBMax bmin bmax 3)
          position radius fun e he => hnn e (sub e (Or.inr (Or.inr (Or.inr he)))))
      refine ⟨a3, ?_⟩
      simp only [getParticlesImpl, Bool.false_eq_true, if_false]
      rw [h0, Option.some_bind, h1, Option.some_bind, h2, Option.some_bind, h3]

end TreeLemmas

/-! ## Claims about the radius query -/

section QueryClaims

variable {α : Type} [LinearOrderedField α] [ExactSqrt α]

/-- C1 (query equivalence): on a quad tree (the root and the four children of every
internal node are nodes, not null) in which every particle stored transitively under a
node lies inside that node's box, for every query position and radius
`QuadTree::getParticles` called with an empty output vector returns, and the set of ids
it returns is the set of ids of the linear scan over the leaves' particles that keeps
those with `|position - p.position| < radius`. -/
theorem getParticles_eq_linear_scan (t : QuadTree α) (position : Vec2 α) (radius : α)
    (hnn : t.NoNull) (hc : t.Contained) :
    ∃ out, t.getParticles [] position radius = some out ∧
      (out.map Particle.id).toFinset
        = ((linearScan (leafParticles t.root) position radius).map Particle.id).toFinset := by
  refine ⟨linearScan (leafParticles t.root) position radius, ?_, rfl⟩
  unfold QuadTree.getParticles
  rw [getParticlesImpl_eq_linearScan t.root [] t.bmin t.bmax position radius hnn hc,
    List.nil_append]

/-- C2 (query soundness with a strict boundary): on every tree, with or without
containment, whenever `getParticles` returns, its output is the input vector followed by
added particles each of which is stored in a leaf of the tree and at distance strictly
less than `radius` from `position` (so never at distance exactly `radius`), and nothing
is added when `radius <= 0`; and it does return when no reachable pointer is null. -/
theorem getParticles_sound (t : QuadTree α) (particles : List (Particle α))
    (position : Vec2 α) (radius : α) :
    (t.NoNull → ∃ out, t.getParticles particles position radius = some out) ∧
    ∀ out, t.getParticles particles position radius = some out →
      ∃ added, out = particles ++ added ∧
        (∀ p ∈ added, p ∈ leafParticles t.root ∧
          (position - p.position).length < radius ∧
          (position - p.position).length ≠ radius) ∧
        (radius ≤ 0 → added = []) := by
  refine ⟨fun hnn => getParticlesImpl_total t.root particles t.bmin t.bmax position radius hnn,
    fun out h => ?_⟩
  obtain ⟨added, e, hs⟩ :=
    getParticlesImpl_sound t.root particles t.bmin t.bmax position radius out h
  have hmem : ∀ p ∈ added, p ∈ leafParticles t.root ∧
      (position - p.position).length < radius := fun p hp =>
    (mem_linearScan _ position radius p).1 (hs.subset hp)
  refine ⟨added, e, fun p hp => ⟨(hmem p hp).1, (hmem p hp).2, ne_of_lt (hmem p hp).2⟩,
    fun hr => ?_⟩
  rw [List.eq_nil_iff_forall_not_mem]
  intro p hp
  exact absurd (hmem p hp).2 (not_lt.2 (le_trans hr (Vec2.length_nonneg _)))

end QueryClaims

/-! ## Facts about the validator -/

section CheckLemmas

variable {α : Type} [LinearOrderedField α]

theorem outsideBox_eq_true_iff (bmin bmax : Vec2 α) (delta : α) (p : Particle α) :
    outsideBox bmin bmax delta p = true ↔
      (p.position.x > bmax.x + delta ∨ p.position.y > bmax.y + delta ∨
       p.position.x < bmin.x - delta ∨ p.position.y < bmin.y - delta) := by
  simp only [outsideBox, Bool.or_eq_true, decide_eq_true_eq]
  tauto

theorem inBoxTol_of_not_outsideBox (bmin bmax : Vec2 α) (delta : α) (p : Particle α)
    (h : outsideBox bmin bmax delta p = false) : inBoxTol bmin bmax delta p.position := by
  have h1 : ¬ (outsideBox bmin bmax delta p = true) := by rw [h]; exact Bool.false_ne_true
  rw [outsideBox_eq_true_iff] at h1
  simp only [not_or, not_lt, gt_iff_lt] at h1
  exact ⟨h1.2.2.1, h1.1, h1.2.2.2, h1.2.1⟩

/-- The four recursive calls of `checkNode` on an internal node. -/
theorem checkNode_internal (ps : List (Particle α)) (c0 c1 c2 c3 : QuadTreeNode α)
    (bmin bmax : Vec2 α) :
    checkNode (.node false ps c0 c1 c2 c3) bmin bmax =
      (checkNode c0 (childBMin bmin (pivotOf bmin bmax) 0) (childBMax bmin bmax 0) &&
       checkNode c1 (childBMin bmin (pivotOf bmin bmax) 1) (childBMax bmin bmax 1) &&
       checkNode c2 (childBMin bmin (pivotOf bmin bmax) 2) (childBMax bmin bmax 2) &&
       checkNode c3 (childBMin bmin (pivotOf bmin bmax) 3) (childBMax bmin bmax 3)) := by
  simp only [checkNode, Bool.false_eq_true, if_false]

theorem checkNode_leaf (ps : List (Particle α)) (c0 c1 c2 c3 : QuadTreeNode α)
    (bmin bmax : Vec2 α) :
    checkNode (.node true ps c0 c1 c2 c3) bmin bmax =
      ps.all fun p => !outsideBox bmin bmax (1 / 10000) p := by
  simp only [checkNode, if_true]

/-- A box inside another: tolerance membership carries over to the outer box. -/
theorem inBoxTol_of_inside (bmin bmax cmin cmax : Vec2 α) (delta : α) (p : Vec2 α)
    (h1 : bmin.x ≤ cmin.x) (h2 : cmax.x ≤ bmax.x) (h3 : bmin.y ≤ cmin.y)
    (h4 : cmax.y ≤ bmax.y) (hp : inBoxTol cmin cmax delta p) : inBoxTol bmin bmax delta p := by
  obtain ⟨q1, q2, q3, q4⟩ := hp
  exact ⟨by linarith, by linarith, by linarith, by linarith⟩

/-- A node that passes `checkNode` on a box that is not inverted keeps every particle of
the leaves under it within tolerance of that box. -/
theorem checkNode_leafParticles (node : QuadTreeNode α) :
    ∀ (bmin bmax : Vec2 α), validBox bmin bmax → checkNode node bmin bmax = true →
      ∀ p ∈ leafParticles node, inBoxTol bmin bmax (1 / 10000) p.position := by
  induction node with
  | null =>
    intro _ _ _ h
    simp [checkNode] at h
  | node isLeaf ps c0 c1 c2 c3 ih0 ih1 ih2 ih3 =>
    intro bmin bmax hv h p hp
    cases isLeaf with
    | true =>
      rw [checkNode_leaf, List.all_eq_true] at h
      simp only [leafParticles, if_true] at hp
      have := h p hp
      rw [Bool.not_eq_true_eq_eq_false] at this
      exact inBoxTol_of_not_outsideBox _ _ _ _ this
    | false =>
      rw [checkNode_internal] at h
      simp only [Bool.and_eq_true] at h
      obtain ⟨⟨⟨h0, h1⟩, h2⟩, h3⟩ := h
      simp only [leafParticles, Bool.false_eq_true, if_false, List.mem_append] at hp
      obtain ⟨v0, a0, b0, c0', d0⟩ := childBox_inside bmin bmax 0 (by norm_num) hv
      obtain ⟨v1, a1, b1, c1', d1⟩ := childBox_inside bmin bmax 1 (by norm_num) hv
      obtain ⟨v2, a2, b2, c2', d2⟩ := childBox_inside bmin bmax 2 (by norm_num) hv
      obtain ⟨v3, a3, b3, c3', d3⟩ := childBox_inside bmin bmax 3 (by norm_num) hv
      rcases hp with ((hp | hp) | hp) | hp
      · exact inBoxTol_of_inside _ _ _ _ _ _ a0 b0 c0' d0 (ih0 _ _ v0 h0 p hp)
      · exact inBoxTol_of_inside _ _ _ _ _ _ a1 b1 c1' d1 (ih1 _ _ v1 h1 p hp)
      · exact inBoxTol_of_inside _ _ _ _ _ _ a2 b2 c2' d2 (ih2 _ _ v2 h2 p hp)
      · exact inBoxTol_of_inside _ _ _ _ _ _ a3 b3 c3' d3 (ih3 _ _ v3 h3 p hp)

/-- Every pointer reachable from a node that passes `checkNode` on a box that is not
inverted passes `checkNode` on its own box, which is not inverted either. -/
theorem checkNode_reachable (node : QuadTreeNode α) :
    ∀ (bmin bmax : Vec2 α), validBox bmin bmax → checkNode node bmin bmax = true →
      ∀ e ∈ reachable node bmin bmax,
        validBox e.bmin e.bmax ∧ checkNode e.node e.bmin e.bmax = true := by
  induction node with
  | null =>
    intro _ _ _ h
    simp [checkNode] at h
  | node isLeaf ps c0 c1 c2 c3 ih0 ih1 ih2 ih3 =>
    intro bmin bmax hv h e he
    cases isLeaf with
    | true =>
      rw [mem_reachable_leaf] at he
      subst he
      exact ⟨hv, h⟩
    | false =>
      rw [mem_reachable_internal] at he
      have hc := h
      rw [checkNode_internal] at hc
      simp only [Bool.and_eq_true] at hc
      obtain ⟨⟨⟨h0, h1⟩, h2⟩, h3⟩ := hc
      rcases he with he | he | he | he | he
      · subst he
        exact ⟨hv, h⟩
      · exact ih0 _ _ (childBox_inside bmin bmax 0 (by norm_num) hv).1 h0 e he
      · exact ih1 _ _ (childBox_inside bmin bmax 1 (by norm_num) hv).1 h1 e he
      · exact ih2 _ _ (childBox_inside bmin bmax 2 (by norm_num) hv).1 h2 e he
      · exact ih3 _ _ (childBox_inside bmin bmax 3 (by norm_num) hv).1 h3 e he

/-- Regrouping a disjunction over the four children by the kind of violation. -/
theorem or_regroup (A0 A1 A2 A3 B0 B1 B2 B3 C0 C1 C2 C3 : Prop) :
    ((A0 ∨ B0 ∨ C0) ∨ (A1 ∨ B1 ∨ C1) ∨ (A2 ∨ B2 ∨ C2) ∨ (A3 ∨ B3 ∨ C3)) ↔
      (False ∨ ((A0 ∨ A1 ∨ A2 ∨ A3) ∨ B0 ∨ B1 ∨ B2 ∨ B3) ∨ (False ∨ C0 ∨ C1 ∨ C2 ∨ C3)) := by
  constructor
  · rintro ((h | h | h) | (h | h | h) | (h | h | h) | (h | h | h)) <;> simp [h]
  · rintro (h | ((h | h | h | h) | h | h | h | h) | (h | h | h | h | h)) <;>
      first
      | exact h.elim
      | simp [h]

/-- When `checkNode` fails: the pointer is null, or a reachable internal node has a null
child, or a reachable leaf stores a particle beyond the tolerance of the leaf's box. -/
theorem checkNode_false_iff (node : QuadTreeNode α) :
    ∀ (bmin bmax : Vec2 α), checkNode node bmin bmax = false ↔
      (node.isNull = true ∨
       (∃ e ∈ reachable node bmin bmax, e.node.hasNullChild = true) ∨
       (∃ e ∈ reachable node bmin bmax, ∃ p ∈ e.node.storedInLeaf,
          p.position.x > e.bmax.x + 1 / 10000 ∨ p.position.y > e.bmax.y + 1 / 10000 ∨
          p.position.x < e.bmin.x - 1 / 10000 ∨ p.position.y < e.bmin.y - 1 / 10000)) := by
  induction node with
  | null =>
    intro _ _
    simp [checkNode, QuadTreeNode.isNull]
  | node isLeaf ps c0 c1 c2 c3 ih0 ih1 ih2 ih3 =>
    intro bmin bmax
    cases isLeaf with
    | true =>
      rw [checkNode_leaf]
      simp only [mem_reachable_leaf, exists_eq_left, QuadTreeNode.isNull,
        QuadTreeNode.hasNullChild, QuadTreeNode.storedInLeaf, if_true, Bool.not_true,
        Bool.false_and, Bool.false_eq_true, false_or]
      rw [← Bool.not_eq_true, List.all_eq_true]
      simp only [Bool.not_eq_true_eq_eq_false, not_forall, Bool.not_eq_false, exists_prop,
        outsideBox_eq_true_iff]
    | false =>
      have hnull : (QuadTreeNode.node false ps c0 c1 c2 c3).hasNullChild = true ↔
          (c0.isNull = true ∨ c1.isNull = true ∨ c2.isNull = true ∨ c3.isNull = true) := by
        simp only [QuadTreeNode.hasNullChild, Bool.not_false, Bool.true_and, Bool.or_eq_true]
        tauto
      have hcheck : checkNode (.node false ps c0 c1 c2 c3) bmin bmax = false ↔
          (checkNode c0 (childBMin bmin (pivotOf bmin bmax) 0) (childBMax bmin bmax 0) = false ∨
           checkNode c1 (childBMin bmin (pivotOf bmin bmax) 1) (childBMax bmin bmax 1) = false ∨
           checkNode c2 (childBMin bmin (pivotOf bmin bmax) 2) (childBMax bmin bmax 2) = false ∨
           checkNode c3 (childBMin bmin (pivotOf bmin bmax) 3) (childBMax bmin bmax 3) = false) := by
        rw [checkNode_internal]
        simp only [Bool.and_eq_false_iff]
        tauto
      have hs1 : (QuadTreeNode.node false ps c0 c1 c2 c3).isNull = true ↔ False := by
        simp [QuadTreeNode.isNull]
      have hs2 : ∀ Q : Particle α → Prop,
          (∃ p ∈ (QuadTreeNode.node false ps c0 c1 c2 c3).storedInLeaf, Q p) ↔ False := by
        intro Q
        simp [QuadTreeNode.storedInLeaf]
      rw [hcheck, ih0, ih1, ih2, ih3, exists_reachable_internal, exists_reachable_internal,
        hnull, hs1, hs2]
      exact or_regroup _ _ _ _ _ _ _ _ _ _ _ _

end CheckLemmas

/-! ## Claims about the validator -/

section CheckClaims

variable {α : Type} [LinearOrderedField α]

/-- C9 (the validator implies containment at every node): for a tree whose root box has
`bmin <= bmax` on both axes, if `QuadTree::checkTree` returns true then for every node
of the tree, internal or leaf, every particle stored in a leaf transitively under it
lies within that node's box enlarged by `1e-4` on each axis, the node boxes being
obtained from the root box by repeated midpoint splitting. -/
theorem checkTree_containment (t : QuadTree α)
    (hbox : t.bmin.x ≤ t.bmax.x ∧ t.bmin.y ≤ t.bmax.y) (hcheck : t.checkTree = true) :
    ∀ e ∈ reachable t.root t.bmin t.bmax, ∀ p ∈ leafParticles e.node,
      inBoxTol e.bmin e.bmax (1 / 10000) p.position := by
  intro e he p hp
  obtain ⟨hv, hc⟩ := checkNode_reachable t.root t.bmin t.bmax hbox hcheck e he
  exact checkNode_leafParticles e.node e.bmin e.bmax hv hc p hp

/-- C10 (the validator reports structural violations as a failure result):
`checkTree` is a total function to the booleans on every tree, null root and null
children included, and it returns false exactly when the root is null, or some child of
an internal node reachable from the root is null, or some particle stored in a reachable
leaf has its x or y more than `1e-4` outside that leaf's box. -/
theorem checkTree_false_iff (t : QuadTree α) :
    t.checkTree = false ↔
      (t.root.isNull = true ∨
       (∃ e ∈ reachable t.root t.bmin t.bmax, e.node.hasNullChild = true) ∨
       (∃ e ∈ reachable t.root t.bmin t.bmax, ∃ p ∈ e.node.storedInLeaf,
          p.position.x > e.bmax.x + 1 / 10000 ∨ p.position.y > e.bmax.y + 1 / 10000 ∨
          p.position.x < e.bmin.x - 1 / 10000 ∨ p.position.y < e.bmin.y - 1 / 10000)) :=
  checkNode_false_iff t.root t.bmin t.bmax

end CheckClaims

/-! ## The example tree -/

section Examples

theorem exampleTree_noNull (α : Type) [LinearOrderedField α] : (exampleTree α).NoNull := by
  intro e he
  simp only [exampleTree, reachable, Bool.false_eq_true, if_false, if_true, List.append_nil,
    List.cons_append, List.nil_append, List.mem_cons, List.mem_singleton, List.not_mem_nil,
    or_false] at he
  rcases he with he | he | he | he | he <;> subst he <;> rfl

theorem exampleTree_contained (α : Type) [LinearOrderedField α] :
    (exampleTree α).Contained := by
  intro e he p hp
  simp only [exampleTree, reachable, Bool.false_eq_true, if_false, if_true, List.append_nil,
    List.cons_append, List.nil_append, List.mem_cons, List.mem_singleton, List.not_mem_nil,
    or_false] at he
  rcases he with he | he | he | he | he <;> subst he <;>
    simp only [leafParticles, Bool.false_eq_true, if_false, if_true, List.append_nil,
      List.cons_append, List.nil_append, List.mem_cons, List.mem_singleton,
      List.not_mem_nil, or_false] at hp
  · rcases hp with hp | hp | hp <;> subst hp <;> simp only [inBox] <;> norm_num
  · subst hp
    simp only [inBox, childBMax, childBMin_zero, pivotOf, sizeOfBox, Vec2.add_x, Vec2.add_y,
      Vec2.sub_x, Vec2.sub_y, Vec2.scale]
    norm_num
  · subst hp
    simp only [inBox, childBMax, childBMin_one, pivotOf, sizeOfBox, Vec2.add_x, Vec2.add_y,
      Vec2.sub_x, Vec2.sub_y, Vec2.scale]
    norm_num
  · subst hp
    simp only [inBox, childBMax, childBMin_three, pivotOf, sizeOfBox, Vec2.add_x, Vec2.add_y,
      Vec2.sub_x, Vec2.sub_y, Vec2.scale]
    norm_num

/-- The linear scan of the example tree around `(0.5,0.5)` with radius 1 keeps particle 1
(distance 0) and drops particle 2 (distance exactly 1) and particle 3 (distance `√2`). -/
theorem exampleTree_linearScan :
    linearScan (leafParticles (exampleTree ℝ).root) ⟨1 / 2, 1 / 2⟩ 1
      = [⟨1, 1, ⟨1 / 2, 1 / 2⟩, ⟨0, 0⟩⟩] := by
  have l1 : ((⟨1 / 2, 1 / 2⟩ : Vec2 ℝ) - ⟨1 / 2, 1 / 2⟩).length = 0 :=
    Vec2.length_eq_of_sq _ le_rfl (by simp [Vec2.sub_x, Vec2.sub_y])
  have l2 : ((⟨1 / 2, 1 / 2⟩ : Vec2 ℝ) - ⟨3 / 2, 1 / 2⟩).length = 1 := by
    rw [Vec2.length_sub_comm, Vec2.length_sub_of_y_eq ⟨3 / 2, 1 / 2⟩ ⟨1 / 2, 1 / 2⟩ rfl
      (by norm_num)]
    norm_num
  have l3 : ¬ ((⟨1 / 2, 1 / 2⟩ : Vec2 ℝ) - ⟨3 / 2, 3 / 2⟩).length < 1 := by
    intro h
    have h0 := Vec2.length_nonneg ((⟨1 / 2, 1 / 2⟩ : Vec2 ℝ) - ⟨3 / 2, 3 / 2⟩)
    have h2 := Vec2.length_mul_self ((⟨1 / 2, 1 / 2⟩ : Vec2 ℝ) - ⟨3 / 2, 3 / 2⟩)
    simp only [Vec2.sub_x, Vec2.sub_y] at h2
    nlinarith
  simp only [linearScan, leafParticles, exampleTree, Bool.false_eq_true, if_false, if_true,
    List.append_nil, List.cons_append, List.nil_append, List.filter_cons, List.filter_nil,
    l1, l2, l3, decide_True, decide_False, zero_lt_one, lt_irrefl]

/-- A witness of C1 over the reals: on the example tree, the query around `(0.5,0.5)`
with radius 1 returns, and the set of ids returned is `{1}`. -/
theorem getParticles_eq_linear_scan_witness :
    ∃ out, (exampleTree ℝ).getParticles [] ⟨1 / 2, 1 / 2⟩ 1 = some out ∧
      (out.map Particle.id).toFinset = {1} := by
  obtain ⟨out, h, hs⟩ := getParticles_eq_linear_scan (exampleTree ℝ) ⟨1 / 2, 1 / 2⟩ 1
    (exampleTree_noNull ℝ) (exampleTree_contained ℝ)
  refine ⟨out, h, ?_⟩
  rw [hs, exampleTree_linearScan]
  rfl

/-- A witness of C2 over the reals: the example tree has no null pointer in reach, so
the query around `(0.5,0.5)` with radius 1 returns. -/
theorem getParticles_sound_witness :
    ∃ out, (exampleTree ℝ).getParticles [] ⟨1 / 2, 1 / 2⟩ 1 = some out :=
  (getParticles_sound (exampleTree ℝ) [] ⟨1 / 2, 1 / 2⟩ 1).1 (exampleTree_noNull ℝ)

/-- The validator accepts the example tree. -/
theorem exampleTree_checkTree : (exampleTree ℚ).checkTree = true := by
  simp only [QuadTree.checkTree, exampleTree, checkNode, Bool.false_eq_true, if_false,
    if_true, List.all_cons, List.all_nil, outsideBox, childBMax, childBMin_zero,
    childBMin_one, childBMin_two, childBMin_three, pivotOf, sizeOfBox, Vec2.add_x,
    Vec2.add_y, Vec2.sub_x, Vec2.sub_y, Vec2.scale]
  norm_num

/-- A witness of C9 over the rationals: the example tree passes `checkTree`, and
particle 3, stored in the leaf `children[3]`, lies within tolerance of the root box. -/
theorem checkTree_containment_witness :
    (exampleTree ℚ).checkTree = true ∧
    inBoxTol (⟨0, 0⟩ : Vec2 ℚ) ⟨2, 2⟩ (1 / 10000) ⟨3 / 2, 3 / 2⟩ :=
  ⟨exampleTree_checkTree,
    checkTree_containment (exampleTree ℚ) (by norm_num [exampleTree]) exampleTree_checkTree
      ⟨(exampleTree ℚ).root, ⟨0, 0⟩, ⟨2, 2⟩⟩ (reachable_self _ _ _)
      ⟨3, 1, ⟨3 / 2, 3 / 2⟩, ⟨0, 0⟩⟩ (by simp [exampleTree, leafParticles])⟩

/-- A witness of C10 over the rationals: the tree whose root has a null `children[2]`
is rejected by `checkTree`. -/
theorem checkTree_false_iff_witness : (exampleTreeNullChild ℚ).checkTree = false :=
  (checkTree_false_iff (exampleTreeNullChild ℚ)).2
    (Or.inr (Or.inl ⟨⟨(exampleTreeNullChild ℚ).root, ⟨0, 0⟩, ⟨2, 2⟩⟩,
      reachable_self _ _ _, rfl⟩))

end Examples

/-! ## Further claims about `computeForce` and `updateParticle` -/

section SymmetryClaims

variable {α : Type} [LinearOrderedField α]

theorem Vec2.neg_x (v : Vec2 α) : (-v).x = -v.x := rfl

theorem Vec2.neg_y (v : Vec2 α) : (-v).y = -v.y := rfl

variable [ExactSqrt α]

/-- C17 (Newton's third law): for every pair of particles and every `cullRadius`,
`computeForce(a, b, cullRadius) = -computeForce(b, a, cullRadius)`, so the two forces of
an isolated pair sum to the zero vector. -/
theorem computeForce_newton_third_law (a b : Particle α) (cullRadius : α) :
    computeForce a b cullRadius = -computeForce b a cullRadius ∧
    computeForce a b cullRadius + computeForce b a cullRadius = ⟨0, 0⟩ := by
  have key : computeForce a b cullRadius = -computeForce b a cullRadius := by
    simp only [computeForce, computeForceTraced, Vec2.length_sub_comm a.position b.position]
    split_ifs <;> ext <;>
      simp only [Vec2.scale, Vec2.sub_x, Vec2.sub_y, Vec2.neg_x, Vec2.neg_y, neg_zero] <;>
      ring
  refine ⟨key, ?_⟩
  rw [key]
  ext <;> simp only [Vec2.add_x, Vec2.add_y, Vec2.neg_x, Vec2.neg_y, neg_add_cancel]

end SymmetryClaims

section FrameClaims

variable {α : Type} [LinearOrderedField α]

end FrameClaims

/-! ## Claims about the child-box geometry -/

section GeometryClaims

variable {α : Type} [LinearOrderedField α]

/-- The four child boxes, written out: `[bmin, pivot]`, then the boxes to its right,
above it, and diagonally opposite, the last being `[pivot, bmax]`. -/
theorem childBox_corners (bmin bmax : Vec2 α) :
    (childBMin bmin (pivotOf bmin bmax) 0 = ⟨bmin.x, bmin.y⟩ ∧
      childBMax bmin bmax 0 = ⟨(bmin.x + bmax.x) / 2, (bmin.y + bmax.y) / 2⟩) ∧
    (childBMin bmin (pivotOf bmin bmax) 1 = ⟨(bmin.x + bmax.x) / 2, bmin.y⟩ ∧
      childBMax bmin bmax 1 = ⟨bmax.x, (bmin.y + bmax.y) / 2⟩) ∧
    (childBMin bmin (pivotOf bmin bmax) 2 = ⟨bmin.x, (bmin.y + bmax.y) / 2⟩ ∧
      childBMax bmin bmax 2 = ⟨(bmin.x + bmax.x) / 2, bmax.y⟩) ∧
    (childBMin bmin (pivotOf bmin bmax) 3 = ⟨(bmin.x + bmax.x) / 2, (bmin.y + bmax.y) / 2⟩ ∧
      childBMax bmin bmax 3 = ⟨bmax.x, bmax.y⟩) := by
  refine ⟨⟨?_, ?_⟩, ⟨?_, ?_⟩, ⟨?_, ?_⟩, ⟨?_, ?_⟩⟩ <;> ext <;>
    simp only [childBMax, childBMin_zero, childBMin_one, childBMin_two, childBMin_three,
      pivotOf, sizeOfBox, Vec2.add_x, Vec2.add_y, Vec2.sub_x, Vec2.sub_y, Vec2.scale] <;>
    ring

/-- C11 (partition invariant of the child-box geometry): for a parent box with
`bmin <= bmax` on both axes, a point lies in the parent box exactly when it lies in one
of the four child boxes `[childBMin, childBMin + size]`, `i = 0..3`; each child box has
a corner at the pivot; a point common to two different child boxes lies on the line
`x = pivot.x` or on the line `y = pivot.y`; and on an internal node `getParticlesImpl`,
`checkNode` and `showNode` all hand these same four boxes to the four children. -/
theorem childBoxes_partition [ExactSqrt α] (bmin bmax : Vec2 α) (hx : bmin.x ≤ bmax.x)
    (hy : bmin.y ≤ bmax.y) :
    (∀ q : Vec2 α, inBox bmin bmax q ↔
      ∃ i, i < 4 ∧ inBox (childBMin bmin (pivotOf bmin bmax) i) (childBMax bmin bmax i) q) ∧
    (∀ i, i < 4 →
      ((childBMin bmin (pivotOf bmin bmax) i).x = (pivotOf bmin bmax).x ∨
        (childBMax bmin bmax i).x = (pivotOf bmin bmax).x) ∧
      ((childBMin bmin (pivotOf bmin bmax) i).y = (pivotOf bmin bmax).y ∨
        (childBMax bmin bmax i).y = (pivotOf bmin bmax).y)) ∧
    (∀ i j, i < 4 → j < 4 → i ≠ j → ∀ q : Vec2 α,
      inBox (childBMin bmin (pivotOf bmin bmax) i) (childBMax bmin bmax i) q →
      inBox (childBMin bmin (pivotOf bmin bmax) j) (childBMax bmin bmax j) q →
      q.x = (pivotOf bmin bmax).x ∨ q.y = (pivotOf bmin bmax).y) ∧
    (∀ (ps : List (Particle α)) (c0 c1 c2 c3 : QuadTreeNode α),
      checkNode (.node false ps c0 c1 c2 c3) bmin bmax =
        (checkNode c0 (childBMin bmin (pivotOf bmin bmax) 0) (childBMax bmin bmax 0) &&
         checkNode c1 (childBMin bmin (pivotOf bmin bmax) 1) (childBMax bmin bmax 1) &&
         checkNode c2 (childBMin bmin (pivotOf bmin bmax) 2) (childBMax bmin bmax 2) &&
         checkNode c3 (childBMin bmin (pivotOf bmin bmax) 3) (childBMax bmin bmax 3)) ∧
      showNode (.node false ps c0 c1 c2 c3) bmin bmax =
        ((showNode c0 (childBMin bmin (pivotOf bmin bmax) 0) (childBMax bmin bmax 0)).bind
          fun d0 =>
         (showNode c1 (childBMin bmin (pivotOf bmin bmax) 1) (childBMax bmin bmax 1)).bind
          fun d1 =>
         (showNode c2 (childBMin bmin (pivotOf bmin bmax) 2) (childBMax bmin bmax 2)).bind
          fun d2 =>
         (showNode c3 (childBMin bmin (pivotOf bmin bmax) 3) (childBMax bmin bmax 3)).bind
          fun d3 => some ((bmin, bmax) :: (d0 ++ d1 ++ d2 ++ d3))) ∧
      ∀ (particles : List (Particle α)) (position : Vec2 α) (radius : α),
        getParticlesImpl particles (.node false ps c0 c1 c2 c3) bmin bmax position radius =
          ((if boxPointDistance (childBMin bmin (pivotOf bmin bmax) 0)
                (childBMax bmin bmax 0) position ≤ radius
            then getParticlesImpl particles c0 (childBMin bmin (pivotOf bmin bmax) 0)
              (childBMax bmin bmax 0) position radius
            else some particles).bind fun particles =>
           (if boxPointDistance (childBMin bmin (pivotOf bmin bmax) 1)
                (childBMax bmin bmax 1) position ≤ radius
            then getParticlesImpl particles c1 (childBMin bmin (pivotOf bmin bmax) 1)
              (childBMax bmin bmax 1) position radius
            else some particles).bind fun particles =>
           (if boxPointDistance (childBMin bmin (pivotOf bmin bmax) 2)
                (childBMax bmin bmax 2) position ≤ radius
            then getParticlesImpl particles c2 (childBMin bmin (pivotOf bmin bmax) 2)
              (childBMax bmin bmax 2) position radius
            else some particles).bind fun particles =>
           (if boxPointDistance (childBMin bmin (pivotOf bmin bmax) 3)
                (childBMax bmin bmax 3) position ≤ radius
            then getParticlesImpl particles c3 (childBMin bmin (pivotOf bmin bmax) 3)
              (childBMax bmin bmax 3) position radius
            else some particles))) := by
  obtain ⟨⟨m0, M0⟩, ⟨m1, M1⟩, ⟨m2, M2⟩, ⟨m3, M3⟩⟩ := childBox_corners bmin bmax
  have hpx : (pivotOf bmin bmax).x = (bmin.x + bmax.x) / 2 := by
    simp only [pivotOf, Vec2.add_x, Vec2.scale]; ring
  have hpy : (pivotOf bmin bmax).y = (bmin.y + bmax.y) / 2 := by
    simp only [pivotOf, Vec2.add_y, Vec2.scale]; ring
  refine ⟨fun q => ⟨fun hq => ?_, ?_⟩, ?_, ?_, ?_⟩
  · obtain ⟨q1, q2, q3, q4⟩ := hq
    rcases le_total q.x ((bmin.x + bmax.x) / 2) with hqx | hqx <;>
      rcases le_total q.y ((bmin.y + bmax.y) / 2) with hqy | hqy
    · exact ⟨0, by norm_num, by rw [m0, M0]; exact ⟨q1, hqx, q3, hqy⟩⟩
    · exact ⟨2, by norm_num, by rw [m2, M2]; exact ⟨q1, hqx, hqy, q4⟩⟩
    · exact ⟨1, by norm_num, by rw [m1, M1]; exact ⟨hqx, q2, q3, hqy⟩⟩
    · exact ⟨3, by norm_num, by rw [m3, M3]; exact ⟨hqx, q2, hqy, q4⟩⟩
  · rintro ⟨i, hi, hq⟩
    obtain ⟨-, a, b, c, d⟩ := childBox_inside bmin bmax i hi ⟨hx, hy⟩
    obtain ⟨q1, q2, q3, q4⟩ := hq
    exact ⟨a.trans q1, q2.trans b, c.trans q3, q4.trans d⟩
  · intro i hi
    rw [hpx, hpy]
    interval_cases i
    · rw [M0]; exact ⟨Or.inr rfl, Or.inr rfl⟩
    · rw [m1, M1]; exact ⟨Or.inl rfl, Or.inr rfl⟩
    · rw [m2, M2]; exact ⟨Or.inr rfl, Or.inl rfl⟩
    · rw [m3]; exact ⟨Or.inl rfl, Or.inl rfl⟩
  · intro i j hi hj hij q hqi hqj
    rw [hpx, hpy]
    interval_cases i <;> interval_cases j <;>
      first
      | exact absurd rfl hij
      | (simp only [m0, M0, m1, M1, m2, M2, m3, M3, inBox] at hqi hqj
         obtain ⟨i1, i2, i3, i4⟩ := hqi
         obtain ⟨j1, j2, j3, j4⟩ := hqj
         first
         | exact Or.inl (le_antisymm i2 j1)
         | exact Or.inl (le_antisymm j2 i1)
         | exact Or.inr (le_antisymm i4 j3)
         | exact Or.inr (le_antisymm j4 i3))
  · intro ps c0 c1 c2 c3
    exact ⟨by simp only [checkNode, Bool.false_eq_true, if_false],
      by simp only [showNode, Bool.false_eq_true, if_false],
      fun particles position radius => by
        simp only [getParticlesImpl, Bool.false_eq_true, if_false]⟩

/-- A witness of C11 over the reals: in the box `[0,2] x [0,2]` the point
`(0.5, 1.5)` lies in the parent box, hence in one of the four child boxes. -/
theorem childBoxes_partition_witness :
    ∃ i, i < 4 ∧
      inBox (childBMin (⟨0, 0⟩ : Vec2 ℝ) (pivotOf ⟨0, 0⟩ ⟨2, 2⟩) i)
        (childBMax ⟨0, 0⟩ ⟨2, 2⟩ i) ⟨1 / 2, 3 / 2⟩ :=
  ((childBoxes_partition (⟨0, 0⟩ : Vec2 ℝ) ⟨2, 2⟩ (by norm_num) (by norm_num)).1
    ⟨1 / 2, 3 / 2⟩).1 (by simp only [inBox]; norm_num)

/-- What `containingChild` is, by the two comparisons with the pivot. -/
theorem containingChild_eq (bmin bmax position : Vec2 α) :
    containingChild bmin bmax position =
      if position.x < (pivotOf bmin bmax).x then
        (if position.y < (pivotOf bmin bmax).y then 2 else 0)
      else (if position.y < (pivotOf bmin bmax).y then 3 else 1) := by
  unfold containingChild
  by_cases h1 : position.x < (pivotOf bmin bmax).x <;>
    by_cases h2 : position.y < (pivotOf bmin bmax).y <;>
    simp [h1, h2]

/-- C20 at a failing input: in the box `[0,2] x [0,2]` (so `bmin < bmax` on both axes)
the position `(0.5, 0.5)` lies inside the box; `containingChild` is 2, the box of child
2 is `[0,1] x [1,2]` and does not contain the position, which lies in the box of child
0: the y comparison sets bit 1 for `y < pivot.y`, while the loop gives the children
with bit 1 set the upper half `[pivot.y, bmax.y]`. -/
theorem containingChild_not_containing :
    ((0 : ℚ) < 2 ∧ inBox (⟨0, 0⟩ : Vec2 ℚ) ⟨2, 2⟩ ⟨1 / 2, 1 / 2⟩) ∧
    containingChild (⟨0, 0⟩ : Vec2 ℚ) ⟨2, 2⟩ ⟨1 / 2, 1 / 2⟩ = 2 ∧
    childBMin (⟨0, 0⟩ : Vec2 ℚ) (pivotOf ⟨0, 0⟩ ⟨2, 2⟩) 2 = ⟨0, 1⟩ ∧
    childBMax (⟨0, 0⟩ : Vec2 ℚ) ⟨2, 2⟩ 2 = ⟨1, 2⟩ ∧
    ¬ inBox (childBMin (⟨0, 0⟩ : Vec2 ℚ) (pivotOf ⟨0, 0⟩ ⟨2, 2⟩) 2)
        (childBMax ⟨0, 0⟩ ⟨2, 2⟩ 2) ⟨1 / 2, 1 / 2⟩ ∧
    inBox (childBMin (⟨0, 0⟩ : Vec2 ℚ) (pivotOf ⟨0, 0⟩ ⟨2, 2⟩) 0)
        (childBMax ⟨0, 0⟩ ⟨2, 2⟩ 0) ⟨1 / 2, 1 / 2⟩ := by
  obtain ⟨⟨m0, M0⟩, -, ⟨m2, M2⟩, -⟩ := childBox_corners (⟨0, 0⟩ : Vec2 ℚ) ⟨2, 2⟩
  have hpx : (pivotOf (⟨0, 0⟩ : Vec2 ℚ) ⟨2, 2⟩).x = 1 := by
    simp only [pivotOf, Vec2.add_x, Vec2.scale]; norm_num
  have hpy : (pivotOf (⟨0, 0⟩ : Vec2 ℚ) ⟨2, 2⟩).y = 1 := by
    simp only [pivotOf, Vec2.add_y, Vec2.scale]; norm_num
  refine ⟨⟨by norm_num, by simp only [inBox]; norm_num⟩, ?_, ?_, ?_, ?_, ?_⟩
  · rw [containingChild_eq, hpx, hpy]; norm_num
  · rw [m2]; ext <;> norm_num
  · rw [M2]; ext <;> norm_num
  · rw [m2, M2]; simp only [inBox]; norm_num
  · rw [m0, M0]; simp only [inBox]; norm_num

/-- What holds of `containingChild` instead: for a position inside the box, the child
whose box contains it is the one with the y bit flipped, `containingChild ^^^ 2`. -/
theorem containingChild_xor_two_contains (bmin bmax position : Vec2 α)
    (hin : inBox bmin bmax position) :
    inBox (childBMin bmin (pivotOf bmin bmax) (containingChild bmin bmax position ^^^ 2))
      (childBMax bmin bmax (containingChild bmin bmax position ^^^ 2)) position := by
  obtain ⟨⟨m0, M0⟩, ⟨m1, M1⟩, ⟨m2, M2⟩, ⟨m3, M3⟩⟩ := childBox_corners bmin bmax
  have hpx : (pivotOf bmin bmax).x = (bmin.x + bmax.x) / 2 := by
    simp only [pivotOf, Vec2.add_x, Vec2.scale]; ring
  have hpy : (pivotOf bmin bmax).y = (bmin.y + bmax.y) / 2 := by
    simp only [pivotOf, Vec2.add_y, Vec2.scale]; ring
  obtain ⟨q1, q2, q3, q4⟩ := hin
  rw [containingChild_eq, hpx, hpy]
  by_cases h1 : position.x < (bmin.x + bmax.x) / 2 <;>
    by_cases h2 : position.y < (bmin.y + bmax.y) / 2
  · rw [if_pos h1, if_pos h2, show (2 ^^^ 2 : Nat) = 0 from rfl, m0, M0]
    exact ⟨q1, le_of_lt h1, q3, le_of_lt h2⟩
  · rw [if_pos h1, if_neg h2, show (0 ^^^ 2 : Nat) = 2 from rfl, m2, M2]
    exact ⟨q1, le_of_lt h1, not_lt.1 h2, q4⟩
  · rw [if_neg h1, if_pos h2, show (3 ^^^ 2 : Nat) = 1 from rfl, m1, M1]
    exact ⟨not_lt.1 h1, q2, q3, le_of_lt h2⟩
  · rw [if_neg h1, if_neg h2, show (1 ^^^ 2 : Nat) = 3 from rfl, m3, M3]
    exact ⟨not_lt.1 h1, q2, not_lt.1 h2, q4⟩

end GeometryClaims

/-! ## The force when the distance floor exceeds the cutoff -/

section FloorClaims

variable {α : Type} [LinearOrderedField α]

/-- The scalar by which `computeForce` multiplies the direction, for a fade factor `f`
between 0 and 1 and a floored distance `d'` of at least `0.1`: it is not negative, and
times the distance it is at most the product of the masses. -/
theorem force_factor_bound (mt ma d d' f : α) (hmt : 0 < mt) (hma : 0 < ma) (hd : 0 < d)
    (hd' : 1 / 10 ≤ d') (hf0 : 0 ≤ f) (hf1 : f ≤ 1) :
    0 ≤ 1 / d * mt * ma * (1 / 100 / (d' * d')) * f ∧
    1 / d * mt * ma * (1 / 100 / (d' * d')) * f * d ≤ mt * ma := by
  have hd'pos : (0 : α) < d' := lt_of_lt_of_le (by norm_num) hd'
  have hsq : (1 : α) / 100 ≤ d' * d' := by nlinarith
  have hg0 : (0 : α) ≤ 1 / 100 / (d' * d') := by positivity
  have hg1 : (1 : α) / 100 / (d' * d') ≤ 1 := by
    rw [div_le_one (by positivity)]
    exact hsq
  refine ⟨by positivity, ?_⟩
  have e : 1 / d * mt * ma * (1 / 100 / (d' * d')) * f * d
      = mt * ma * ((1 / 100 / (d' * d')) * f) := by
    field_simp
    ring
  rw [e]
  have hgf : (1 / 100 / (d' * d')) * f ≤ 1 := by
    calc (1 / 100 / (d' * d')) * f ≤ 1 * 1 := mul_le_mul hg1 hf1 hf0 (by norm_num)
      _ = 1 := one_mul 1
  calc mt * ma * ((1 / 100 / (d' * d')) * f) ≤ mt * ma * 1 :=
        mul_le_mul_of_nonneg_left hgf (by positivity)
    _ = mt * ma := mul_one _

variable [ExactSqrt α]

/-- Where C12 and C15 do hold: when `cullRadius` is at least the distance floor `0.1`,
`computeForce` is a non-negative multiple `k` of `attractor.position - target.position`,
and `k` times the distance, the magnitude of the force, is at most
`target.mass * attractor.mass`. -/
theorem computeForce_attractive_of_floor_le (target attractor : Particle α) (cullRadius : α)
    (hmt : 0 < target.mass) (hma : 0 < attractor.mass) (hc : 1 / 10 ≤ cullRadius) :
    ∃ k, 0 ≤ k ∧
      computeForce target attractor cullRadius
        = (attractor.position - target.position).scale k ∧
      k * (attractor.position - target.position).length ≤ target.mass * attractor.mass := by
  have hcpos : 0 < cullRadius := lt_of_lt_of_le (by norm_num) hc
  simp only [computeForce, computeForceTraced]
  generalize (attractor.position - target.position).length = d
  have hzero : ∃ k, 0 ≤ k ∧
      (⟨0, 0⟩ : Vec2 α) = (attractor.position - target.position).scale k ∧
      k * d ≤ target.mass * attractor.mass :=
    ⟨0, le_rfl, by ext <;> simp only [Vec2.scale, mul_zero], by
      rw [zero_mul]; positivity⟩
  by_cases h1 : d < 1 / 1000
  · rw [if_pos h1]; exact hzero
  rw [if_neg h1]
  by_cases h2 : d > cullRadius
  · rw [if_pos h2]; exact hzero
  rw [if_neg h2]
  have hdpos : 0 < d := lt_of_lt_of_le (by norm_num) (not_lt.1 h1)
  have hfloor : 1 / 10 ≤ (if d < 1 / 10 then 1 / 10 else d) := by
    split_ifs with h
    · exact le_rfl
    · exact not_lt.1 h
  have hle : (if d < 1 / 10 then 1 / 10 else d) ≤ cullRadius := by
    split_ifs with h
    · exact hc
    · exact not_lt.1 h2
  generalize (if d < 1 / 10 then 1 / 10 else d) = d' at hfloor hle ⊢
  by_cases h3 : d' > cullRadius * (3 / 4)
  · rw [if_pos h3]
    have hf0 : 0 ≤ 1 - (d' - cullRadius * (3 / 4)) / (cullRadius * (1 / 4)) := by
      rw [sub_nonneg, div_le_one (by positivity)]
      linarith
    have hf1 : 1 - (d' - cullRadius * (3 / 4)) / (cullRadius * (1 / 4)) ≤ 1 := by
      have : 0 ≤ (d' - cullRadius * (3 / 4)) / (cullRadius * (1 / 4)) :=
        div_nonneg (by linarith) (by positivity)
      linarith
    obtain ⟨k0, k1⟩ := force_factor_bound target.mass attractor.mass d d' _ hmt hma hdpos
      hfloor hf0 hf1
    refine ⟨_, k0, ?_, k1⟩
    ext <;> simp only [Vec2.scale] <;> ring
  · rw [if_neg h3]
    obtain ⟨k0, k1⟩ := force_factor_bound target.mass attractor.mass d d' 1 hmt hma hdpos
      hfloor zero_le_one le_rfl
    refine ⟨_, k0, ?_, k1⟩
    ext <;> simp only [Vec2.scale] <;> ring

/-- Where C12 holds: when `cullRadius` is at least the distance floor `0.1`, the
magnitude of the force is at most `0.01 * target.mass * attractor.mass / 0.1^2`. -/
theorem computeForce_length_le_of_floor_le (target attractor : Particle α) (cullRadius : α)
    (hmt : 0 < target.mass) (hma : 0 < attractor.mass) (hc : 1 / 10 ≤ cullRadius) :
    (computeForce target attractor cullRadius).length
      ≤ 1 / 100 * target.mass * attractor.mass / (1 / 10) ^ 2 := by
  obtain ⟨k, hk, e, hb⟩ :=
    computeForce_attractive_of_floor_le target attractor cullRadius hmt hma hc
  rw [e, Vec2.length_scale, abs_of_nonneg hk]
  calc k * (attractor.position - target.position).length
      ≤ target.mass * attractor.mass := hb
    _ = 1 / 100 * target.mass * attractor.mass / (1 / 10) ^ 2 := by
        field_simp
        ring

/-- The force at the input where the distance floor exceeds the cutoff:
`cullRadius = 0.05`, unit masses, the particles at `(0,0)` and `(0.05,0)`. -/
theorem computeForce_below_floor_value :
    computeForce (⟨0, 1, ⟨0, 0⟩, ⟨0, 0⟩⟩ : Particle ℝ) ⟨1, 1, ⟨1 / 20, 0⟩, ⟨0, 0⟩⟩ (1 / 20)
      = ⟨-4, 0⟩ := by
  have hlen : ((⟨1 / 20, 0⟩ : Vec2 ℝ) - ⟨0, 0⟩).length = 1 / 20 := by
    rw [Vec2.length_sub_of_y_eq ⟨1 / 20, 0⟩ ⟨0, 0⟩ rfl (by norm_num)]; norm_num
  simp only [computeForce, computeForceTraced, hlen]
  norm_num [Vec2.scale, Vec2.sub_x, Vec2.sub_y]

/-- C12 at a failing input: with `cullRadius = 0.05`, unit masses and the particles at
`(0,0)` and `(0.05,0)`, the force `(-4, 0)` has magnitude 4, which exceeds the bound
`0.01 * 1 * 1 / 0.1^2 = 1`. -/
theorem computeForce_length_exceeds_bound :
    (0 : ℝ) < 1 / 20 ∧
    (computeForce (⟨0, 1, ⟨0, 0⟩, ⟨0, 0⟩⟩ : Particle ℝ) ⟨1, 1, ⟨1 / 20, 0⟩, ⟨0, 0⟩⟩
      (1 / 20)).length = 4 ∧
    ¬ ((computeForce (⟨0, 1, ⟨0, 0⟩, ⟨0, 0⟩⟩ : Particle ℝ) ⟨1, 1, ⟨1 / 20, 0⟩, ⟨0, 0⟩⟩
      (1 / 20)).length ≤ 1 / 100 * 1 * 1 / (1 / 10) ^ 2) := by
  have hlen : (computeForce (⟨0, 1, ⟨0, 0⟩, ⟨0, 0⟩⟩ : Particle ℝ)
      ⟨1, 1, ⟨1 / 20, 0⟩, ⟨0, 0⟩⟩ (1 / 20)).length = 4 := by
    rw [computeForce_below_floor_value]
    exact Vec2.length_eq_of_sq _ (by norm_num) (by norm_num)
  refine ⟨by norm_num, hlen, ?_⟩
  rw [hlen]
  norm_num

/-- C15 at a failing input: with `cullRadius = 0.05`, unit masses and the particles at
`(0,0)` and `(0.05,0)`, the direction to the attractor is `(0.05, 0)` and the force is
`(-4, 0)`, which is `-80` times the direction and no non-negative multiple of it; the
fade factor applied is `1 - (0.1 - 0.75 * 0.05) / (0.25 * 0.05) = -4`. -/
theorem computeForce_repulsive_below_floor :
    (0 : ℝ) < 1 / 20 ∧
    computeForce (⟨0, 1, ⟨0, 0⟩, ⟨0, 0⟩⟩ : Particle ℝ) ⟨1, 1, ⟨1 / 20, 0⟩, ⟨0, 0⟩⟩ (1 / 20)
      = ((⟨1 / 20, 0⟩ : Vec2 ℝ) - ⟨0, 0⟩).scale (-80) ∧
    ¬ ∃ k : ℝ, 0 ≤ k ∧
      computeForce (⟨0, 1, ⟨0, 0⟩, ⟨0, 0⟩⟩ : Particle ℝ) ⟨1, 1, ⟨1 / 20, 0⟩, ⟨0, 0⟩⟩ (1 / 20)
        = ((⟨1 / 20, 0⟩ : Vec2 ℝ) - ⟨0, 0⟩).scale k := by
  refine ⟨by norm_num, ?_, ?_⟩
  · rw [computeForce_below_floor_value]
    ext <;> simp only [Vec2.scale, Vec2.sub_x, Vec2.sub_y] <;> norm_num
  · rintro ⟨k, hk, h⟩
    rw [computeForce_below_floor_value] at h
    have hx := congrArg Vec2.x h
    simp only [Vec2.scale, Vec2.sub_x] at hx
    linarith

end FloorClaims

/-! ## Further claims about the radius query -/

section QueryFrameClaims

variable {α : Type} [LinearOrderedField α]

/-- No pointer reachable from a node that passes `checkNode` is null. -/
theorem checkNode_noNull (node : QuadTreeNode α) :
    ∀ (bmin bmax : Vec2 α), checkNode node bmin bmax = true →
      ∀ e ∈ reachable node bmin bmax, e.node.isNull = false := by
  induction node with
  | null =>
    intro _ _ h
    simp [checkNode] at h
  | node isLeaf ps c0 c1 c2 c3 ih0 ih1 ih2 ih3 =>
    intro bmin bmax h e he
    cases isLeaf with
    | true =>
      rw [mem_reachable_leaf] at he
      subst he
      rfl
    | false =>
      rw [mem_reachable_internal] at he
      rw [checkNode_internal] at h
      simp only [Bool.and_eq_true] at h
      obtain ⟨⟨⟨h0, h1⟩, h2⟩, h3⟩ := h
      rcases he with he | he | he | he | he
      · subst he
        rfl
      · exact ih0 _ _ h0 e he
      · exact ih1 _ _ h1 e he
      · exact ih2 _ _ h2 e he
      · exact ih3 _ _ h3 e he

/-- The validator accepts the example tree, over any ordered field. -/
theorem exampleTree_checkTree_field (α : Type) [LinearOrderedField α] :
    (exampleTree α).checkTree = true := by
  simp only [QuadTree.checkTree, exampleTree, checkNode, Bool.false_eq_true, if_false,
    if_true, List.all_cons, List.all_nil, outsideBox, childBMax, childBMin_zero,
    childBMin_one, childBMin_two, childBMin_three, pivotOf, sizeOfBox, Vec2.add_x,
    Vec2.add_y, Vec2.sub_x, Vec2.sub_y, Vec2.scale]
  norm_num

variable [ExactSqrt α]

/-- C16 (`getParticles` appends and neither reorders nor duplicates): on a quad tree
(no null pointer in reach) that satisfies exact containment at every node, for every
position, radius and initial output vector `out0`, `getParticles` returns `out0`
followed by the leaves' particles, flattened depth first in child-index order
0, 1, 2, 3 and filtered by `distance < radius`; in particular `out0` is a prefix of the
result. -/
theorem getParticles_appends (t : QuadTree α) (out0 : List (Particle α))
    (position : Vec2 α) (radius : α) (hnn : t.NoNull) (hc : t.Contained) :
    t.getParticles out0 position radius =
      some (out0 ++ (leafParticles t.root).filter
        fun p => decide ((position - p.position).length < radius)) ∧
    ∃ out, t.getParticles out0 position radius = some out ∧ out0 <+: out := by
  have h := getParticlesImpl_eq_linearScan t.root out0 t.bmin t.bmax position radius hnn hc
  exact ⟨h, _, h, List.prefix_append _ _⟩

/-- C18 (a validated tree is safe to query): on a tree on which `checkTree` returns
true, no pointer the traversal can reach is null, and for every start vector, query
position and radius `getParticles` returns a result (the null-dereference outcome `none`
does not occur; the recursion is structural, hence terminates). -/
theorem getParticles_safe_of_checkTree (t : QuadTree α) (particles : List (Particle α))
    (position : Vec2 α) (radius : α) (hcheck : t.checkTree = true) :
    t.NoNull ∧ ∃ out, t.getParticles particles position radius = some out := by
  have hnn : t.NoNull := checkNode_noNull t.root t.bmin t.bmax hcheck
  exact ⟨hnn, getParticlesImpl_total t.root particles t.bmin t.bmax position radius hnn⟩

end QueryFrameClaims

section QueryFrameWitnesses

/-- A witness of C16 over the reals: on the example tree, the query around `(0.5,0.5)`
with radius 1 started on a vector holding particle 7 returns particle 7 followed by
particle 1. -/
theorem getParticles_appends_witness :
    (exampleTree ℝ).getParticles [⟨7, 1, ⟨5, 5⟩, ⟨0, 0⟩⟩] ⟨1 / 2, 1 / 2⟩ 1
      = some [⟨7, 1, ⟨5, 5⟩, ⟨0, 0⟩⟩, ⟨1, 1, ⟨1 / 2, 1 / 2⟩, ⟨0, 0⟩⟩] := by
  have h := (getParticles_appends (exampleTree ℝ) [⟨7, 1, ⟨5, 5⟩, ⟨0, 0⟩⟩] ⟨1 / 2, 1 / 2⟩ 1
    (exampleTree_noNull ℝ) (exampleTree_contained ℝ)).1
  have e := exampleTree_linearScan
  unfold linearScan at e
  rw [h, e]
  rfl

/-- A witness of C18 over the reals: the example tree passes `checkTree`, and the query
around `(0.5,0.5)` with radius 1 returns. -/
theorem getParticles_safe_of_checkTree_witness :
    (exampleTree ℝ).checkTree = true ∧
    ∃ out, (exampleTree ℝ).getParticles [] ⟨1 / 2, 1 / 2⟩ 1 = some out :=
  ⟨exampleTree_checkTree_field ℝ,
    (getParticles_safe_of_checkTree (exampleTree ℝ) [] ⟨1 / 2, 1 / 2⟩ 1
      (exampleTree_checkTree_field ℝ)).2⟩

end QueryFrameWitnesses

/-! ## The radius query on validated trees -/

section ToleranceLemmas

variable {α : Type} [LinearOrderedField α] [ExactSqrt α]

theorem sqrt_le_of_le_mul_self {x y : α} (hx : 0 ≤ x) (hy : 0 ≤ y) (h : x ≤ y * y) :
    ExactSqrt.sqrt x ≤ y := by
  rw [mul_self_le_mul_self_iff (ExactSqrt.sqrt_nonneg x) hy, ExactSqrt.mul_self_sqrt x hx]
  exact h

theorem sqrt_two_mul_self : ExactSqrt.sqrt (2 : α) * ExactSqrt.sqrt 2 = 2 :=
  ExactSqrt.mul_self_sqrt 2 (by norm_num)

theorem sqrt_two_le_two : ExactSqrt.sqrt (2 : α) ≤ 2 :=
  sqrt_le_of_le_mul_self (by norm_num) (by norm_num) (by norm_num)

/-- The sum of the absolute coordinates of a vector is at most `√2` times its length. -/
theorem abs_add_abs_le_sqrt_two_mul_length (v : Vec2 α) :
    |v.x| + |v.y| ≤ ExactSqrt.sqrt 2 * v.length := by
  have hs : ExactSqrt.sqrt (2 : α) * ExactSqrt.sqrt 2 = 2 := sqrt_two_mul_self
  have hL := v.length_mul_self
  have h0 : 0 ≤ ExactSqrt.sqrt (2 : α) * v.length :=
    mul_nonneg (ExactSqrt.sqrt_nonneg _) v.length_nonneg
  rw [mul_self_le_mul_self_iff (add_nonneg (abs_nonneg _) (abs_nonneg _)) h0]
  have e : ExactSqrt.sqrt (2 : α) * v.length * (ExactSqrt.sqrt 2 * v.length)
      = 2 * (v.x * v.x + v.y * v.y) := by
    calc ExactSqrt.sqrt (2 : α) * v.length * (ExactSqrt.sqrt 2 * v.length)
        = (ExactSqrt.sqrt 2 * ExactSqrt.sqrt 2) * (v.length * v.length) := by ring
      _ = 2 * (v.x * v.x + v.y * v.y) := by rw [hs, hL]
  rw [e]
  have hx := abs_mul_abs_self v.x
  have hy := abs_mul_abs_self v.y
  nlinarith [mul_self_nonneg (|v.x| - |v.y|)]

/-- For a point within tolerance `delta` of a box, the box-to-point distance exceeds the
distance to the point by at most `√2 * delta`. -/
theorem boxPointDistance_le_of_inBoxTol (bmin bmax p q : Vec2 α) (delta : α)
    (hdelta : 0 ≤ delta) (hq : inBoxTol bmin bmax delta q) :
    boxPointDistance bmin bmax p ≤ (p - q).length + ExactSqrt.sqrt 2 * delta := by
  obtain ⟨h1, h2, h3, h4⟩ := hq
  have hx : max (max (bmin.x - p.x) (p.x - bmax.x)) 0 ≤ |p.x - q.x| + delta := by
    refine max_le (max_le ?_ ?_) (add_nonneg (abs_nonneg _) hdelta)
    · have := neg_abs_le (p.x - q.x); linarith
    · have := le_abs_self (p.x - q.x); linarith
  have hy : max (max (bmin.y - p.y) (p.y - bmax.y)) 0 ≤ |p.y - q.y| + delta := by
    refine max_le (max_le ?_ ?_) (add_nonneg (abs_nonneg _) hdelta)
    · have := neg_abs_le (p.y - q.y); linarith
    · have := le_abs_self (p.y - q.y); linarith
  have hx2 := mul_self_le_mul_self (le_max_right _ _) hx
  have hy2 := mul_self_le_mul_self (le_max_right _ _) hy
  have hL := (p - q).length_mul_self
  have hL0 := (p - q).length_nonneg
  have hs : ExactSqrt.sqrt (2 : α) * ExactSqrt.sqrt 2 = 2 := sqrt_two_mul_self
  have hs0 := ExactSqrt.sqrt_nonneg (2 : α)
  have hsum := abs_add_abs_le_sqrt_two_mul_length (p - q)
  simp only [Vec2.sub_x, Vec2.sub_y] at hL hsum
  have hax := abs_mul_abs_self (p.x - q.x)
  have hay := abs_mul_abs_self (p.y - q.y)
  unfold boxPointDistance
  apply sqrt_le_of_le_mul_self (add_nonneg (mul_self_nonneg _) (mul_self_nonneg _))
    (add_nonneg hL0 (mul_nonneg hs0 hdelta))
  have hd := mul_le_mul_of_nonneg_left hsum hdelta
  have expand : ((p - q).length + ExactSqrt.sqrt 2 * delta)
        * ((p - q).length + ExactSqrt.sqrt 2 * delta)
      = (p - q).length * (p - q).length
        + 2 * (delta * (ExactSqrt.sqrt 2 * (p - q).length))
        + (ExactSqrt.sqrt 2 * ExactSqrt.sqrt 2) * (delta * delta) := by ring
  rw [expand, hL, hs]
  nlinarith

/-- One iteration of the child loop keeps what the output vector already holds. -/
theorem visit_mono (c : QuadTreeNode α) (bmin bmax position : Vec2 α) (radius : α)
    (acc out : List (Particle α))
    (h : (if boxPointDistance bmin bmax position ≤ radius
      then getParticlesImpl acc c bmin bmax position radius else some acc) = some out) :
    ∀ p ∈ acc, p ∈ out := by
  obtain ⟨added, e, -⟩ := visit_sound c bmin bmax position radius acc out
    (getParticlesImpl_sound c acc bmin bmax position radius) h
  intro p hp
  rw [e]
  exact List.mem_append_left _ hp

/-- One iteration of the child loop on a validated child: the child is entered whenever
one of its particles is closer than `radius - √2 * 1e-4`. -/
theorem visit_complete_tol (c : QuadTreeNode α) (bmin bmax position : Vec2 α) (radius : α)
    (acc out : List (Particle α)) (hv : validBox bmin bmax)
    (hck : checkNode c bmin bmax = true)
    (hrec : ∀ out, getParticlesImpl acc c bmin bmax position radius = some out →
      ∀ p ∈ leafParticles c,
        (position - p.position).length < radius - ExactSqrt.sqrt 2 * (1 / 10000) → p ∈ out)
    (h : (if boxPointDistance bmin bmax position ≤ radius
      then getParticlesImpl acc c bmin bmax position radius else some acc) = some out) :
    ∀ p ∈ leafParticles c,
      (position - p.position).length < radius - ExactSqrt.sqrt 2 * (1 / 10000) → p ∈ out := by
  intro p hp hd
  have htol := checkNode_leafParticles c bmin bmax hv hck p hp
  have hb := boxPointDistance_le_of_inBoxTol bmin bmax position p.position (1 / 10000)
    (by norm_num) htol
  rw [if_pos (by linarith)] at h
  exact hrec out h p hp hd

/-- On a validated tree the query returns every particle of the leaves that is closer
than `radius - √2 * 1e-4`. -/
theorem getParticlesImpl_complete_tol (node : QuadTreeNode α) :
    ∀ (particles : List (Particle α)) (bmin bmax position : Vec2 α) (radius : α)
      (out : List (Particle α)),
      validBox bmin bmax → checkNode node bmin bmax = true →
      getParticlesImpl particles node bmin bmax position radius = some out →
      ∀ p ∈ leafParticles node,
        (position - p.position).length < radius - ExactSqrt.sqrt 2 * (1 / 10000) →
        p ∈ out := by
  induction node with
  | null =>
    intro _ _ _ _ _ _ _ h
    simp [checkNode] at h
  | node isLeaf ps c0 c1 c2 c3 ih0 ih1 ih2 ih3 =>
    intro particles bmin bmax position radius out hv hck h p hp hd
    cases isLeaf with
    | true =>
      simp only [getParticlesImpl, if_true, pushWithin_eq, Option.some.injEq] at h
      simp only [leafParticles, if_true] at hp
      rw [← h]
      apply List.mem_append_right
      rw [mem_linearScan]
      have hs : (0 : α) ≤ ExactSqrt.sqrt 2 * (1 / 10000) :=
        mul_nonneg (ExactSqrt.sqrt_nonneg _) (by norm_num)
      exact ⟨hp, by linarith⟩
    | false =>
      rw [checkNode_internal] at hck
      simp only [Bool.and_eq_true] at hck
      obtain ⟨⟨⟨k0, k1⟩, k2⟩, k3⟩ := hck
      simp only [getParticlesImpl, Bool.false_eq_true, if_false, Option.bind_eq_some] at h
      obtain ⟨a0, h0, a1, h1, a2, h2, h3⟩ := h
      simp only [leafParticles, Bool.false_eq_true, if_false, List.mem_append] at hp
      have v0 := (childBox_inside bmin bmax 0 (by norm_num) hv).1
      have v1 := (childBox_inside bmin bmax 1 (by norm_num) hv).1
      have v2 := (childBox_inside bmin bmax 2 (by norm_num) hv).1
      have v3 := (childBox_inside bmin bmax 3 (by norm_num) hv).1
      have m1 := visit_mono c1 _ _ position radius a0 a1 h1
      have m2 := visit_mono c2 _ _ position radius a1 a2 h2
      have m3 := visit_mono c3 _ _ position radius a2 out h3
      rcases hp with ((hp | hp) | hp) | hp
      · exact m3 p (m2 p (m1 p (visit_complete_tol c0 _ _ position radius particles a0 v0 k0
          (fun o ho => ih0 _ _ _ _ _ o v0 k0 ho) h0 p hp hd)))
      · exact m3 p (m2 p (visit_complete_tol c1 _ _ position radius a0 a1 v1 k1
          (fun o ho => ih1 _ _ _ _ _ o v1 k1 ho) h1 p hp hd))
      · exact m3 p (visit_complete_tol c2 _ _ position radius a1 a2 v2 k2
          (fun o ho => ih2 _ _ _ _ _ o v2 k2 ho) h2 p hp hd)
      · exact visit_complete_tol c3 _ _ position radius a2 out v3 k3
          (fun o ho => ih3 _ _ _ _ _ o v3 k3 ho) h3 p hp hd

end ToleranceLemmas

section ToleranceClaims

variable {α : Type} [LinearOrderedField α] [ExactSqrt α]

/-- C13, amended (the radius query on validated trees): for a tree that `checkTree`
accepts and whose root box has `bmin <= bmax` on both axes, for every query position
and radius `getParticles` returns; every particle it returns is stored in a leaf and
closer to the position than `radius`; and it returns every stored particle that is
closer to the position than `radius - √2 * 1e-4`. -/
theorem getParticles_validated (t : QuadTree α) (position : Vec2 α) (radius : α)
    (hbox : t.bmin.x ≤ t.bmax.x ∧ t.bmin.y ≤ t.bmax.y) (hcheck : t.checkTree = true) :
    ∃ out, t.getParticles [] position radius = some out ∧
      (∀ p ∈ out, p ∈ leafParticles t.root ∧ (position - p.position).length < radius) ∧
      (∀ p ∈ leafParticles t.root,
        (position - p.position).length < radius - ExactSqrt.sqrt 2 * (1 / 10000) →
        p ∈ out) := by
  obtain ⟨out, h⟩ := getParticlesImpl_total t.root [] t.bmin t.bmax position radius
    (checkNode_noNull t.root t.bmin t.bmax hcheck)
  refine ⟨out, h, fun p hp => ?_, ?_⟩
  · obtain ⟨added, e, hs⟩ := getParticlesImpl_sound t.root [] t.bmin t.bmax position radius
      out h
    rw [e, List.nil_append] at hp
    exact (mem_linearScan _ position radius p).1 (hs.subset hp)
  · exact getParticlesImpl_complete_tol t.root [] t.bmin t.bmax position radius out hbox
      hcheck h

end ToleranceClaims

section ToleranceExamples

/-- The box-to-point distance from the lengths of its two per-axis offsets. -/
theorem boxPointDistance_eq_of_sq (bmin bmax p : Vec2 ℝ) (d : ℝ) (hd : 0 ≤ d)
    (h : d * d =
      max (max (bmin.x - p.x) (p.x - bmax.x)) 0 * max (max (bmin.x - p.x) (p.x - bmax.x)) 0 +
      max (max (bmin.y - p.y) (p.y - bmax.y)) 0 * max (max (bmin.y - p.y) (p.y - bmax.y)) 0) :
    boxPointDistance bmin bmax p = d :=
  sqrt_eq_of_mul_self hd h

/-- The validator accepts the tree whose particle lies `0.00005` outside its leaf. -/
theorem exampleTreeTolerance_checkTree : (exampleTreeTolerance ℝ).checkTree = true := by
  simp only [QuadTree.checkTree, exampleTreeTolerance, checkNode, Bool.false_eq_true,
    if_false, if_true, List.all_cons, List.all_nil, outsideBox, childBMax, childBMin_zero,
    childBMin_one, childBMin_two, childBMin_three, pivotOf, sizeOfBox, Vec2.add_x,
    Vec2.add_y, Vec2.sub_x, Vec2.sub_y, Vec2.scale]
  norm_num

/-- C13 fails as stated: the tree on `[0,2] x [0,2]` whose leaf `children[0]` (box
`[0,1] x [0,1]`) stores particle 1 at `(1.00005, 1)` is accepted by `checkTree`; the
particle is at distance `0.49995` from the position `(1.5, 1)`, less than the radius
`0.499975`; yet the query returns the empty vector, because the box of `children[0]` is
at distance `0.5 > radius` from the position and the child is pruned. -/
theorem getParticles_validated_counterexample :
    ((exampleTreeTolerance ℝ).bmin.x ≤ (exampleTreeTolerance ℝ).bmax.x ∧
      (exampleTreeTolerance ℝ).bmin.y ≤ (exampleTreeTolerance ℝ).bmax.y) ∧
    (exampleTreeTolerance ℝ).checkTree = true ∧
    (⟨1, 1, ⟨1 + 1 / 20000, 1⟩, ⟨0, 0⟩⟩ : Particle ℝ)
      ∈ leafParticles (exampleTreeTolerance ℝ).root ∧
    ((⟨3 / 2, 1⟩ : Vec2 ℝ) - ⟨1 + 1 / 20000, 1⟩).length < 1 / 2 - 1 / 40000 ∧
    (exampleTreeTolerance ℝ).getParticles [] ⟨3 / 2, 1⟩ (1 / 2 - 1 / 40000) = some [] := by
  obtain ⟨⟨m0, M0⟩, ⟨m1, M1⟩, ⟨m2, M2⟩, ⟨m3, M3⟩⟩ := childBox_corners (⟨0, 0⟩ : Vec2 ℝ) ⟨2, 2⟩
  have b0 : boxPointDistance (childBMin (⟨0, 0⟩ : Vec2 ℝ) (pivotOf ⟨0, 0⟩ ⟨2, 2⟩) 0)
      (childBMax ⟨0, 0⟩ ⟨2, 2⟩ 0) ⟨3 / 2, 1⟩ = 1 / 2 := by
    rw [m0, M0]
    apply boxPointDistance_eq_of_sq _ _ _ _ (by norm_num)
    norm_num
  have b1 : boxPointDistance (childBMin (⟨0, 0⟩ : Vec2 ℝ) (pivotOf ⟨0, 0⟩ ⟨2, 2⟩) 1)
      (childBMax ⟨0, 0⟩ ⟨2, 2⟩ 1) ⟨3 / 2, 1⟩ = 0 := by
    rw [m1, M1]
    apply boxPointDistance_eq_of_sq _ _ _ _ le_rfl
    norm_num
  have b2 : boxPointDistance (childBMin (⟨0, 0⟩ : Vec2 ℝ) (pivotOf ⟨0, 0⟩ ⟨2, 2⟩) 2)
      (childBMax ⟨0, 0⟩ ⟨2, 2⟩ 2) ⟨3 / 2, 1⟩ = 1 / 2 := by
    rw [m2, M2]
    apply boxPointDistance_eq_of_sq _ _ _ _ (by norm_num)
    norm_num
  have b3 : boxPointDistance (childBMin (⟨0, 0⟩ : Vec2 ℝ) (pivotOf ⟨0, 0⟩ ⟨2, 2⟩) 3)
      (childBMax ⟨0, 0⟩ ⟨2, 2⟩ 3) ⟨3 / 2, 1⟩ = 0 := by
    rw [m3, M3]
    apply boxPointDistance_eq_of_sq _ _ _ _ le_rfl
    norm_num
  refine ⟨⟨by norm_num [exampleTreeTolerance], by norm_num [exampleTreeTolerance]⟩,
    exampleTreeTolerance_checkTree, ?_, ?_, ?_⟩
  · simp [exampleTreeTolerance, leafParticles]
  · rw [Vec2.length_sub_of_y_eq ⟨3 / 2, 1⟩ ⟨1 + 1 / 20000, 1⟩ rfl (by norm_num)]
    norm_num
  · simp only [QuadTree.getParticles, exampleTreeTolerance, getParticlesImpl,
      Bool.false_eq_true, if_false, if_true, b0, b1, b2, b3, pushWithin, List.foldl_nil]
    norm_num

/-- A witness of the amended C13 over the reals: the example tree passes `checkTree`,
and the query around `(0.5,0.5)` with radius 1 returns a vector that holds particle 1,
which is at distance 0. -/
theorem getParticles_validated_witness :
    ∃ out, (exampleTree ℝ).getParticles [] ⟨1 / 2, 1 / 2⟩ 1 = some out ∧
      (⟨1, 1, ⟨1 / 2, 1 / 2⟩, ⟨0, 0⟩⟩ : Particle ℝ) ∈ out := by
  obtain ⟨out, h, -, hcomp⟩ := getParticles_validated (exampleTree ℝ) ⟨1 / 2, 1 / 2⟩ 1
    ⟨by norm_num [exampleTree], by norm_num [exampleTree]⟩ (exampleTree_checkTree_field ℝ)
  refine ⟨out, h, hcomp _ (by simp [exampleTree, leafParticles]) ?_⟩
  have l1 : ((⟨1 / 2, 1 / 2⟩ : Vec2 ℝ) - ⟨1 / 2, 1 / 2⟩).length = 0 :=
    Vec2.length_eq_of_sq _ le_rfl (by simp [Vec2.sub_x, Vec2.sub_y])
  have hs : ExactSqrt.sqrt (2 : ℝ) ≤ 2 := sqrt_two_le_two
  rw [l1]
  linarith

end ToleranceExamples

end NBody
